import Mathlib

/-! hip-analyzer: basic-block instrumentation and counter reduction.

A shallow embedding of the parts of the repository that the verified
properties talk about, and the proofs of those properties.

* `hip_instrumentation.cpp`: the runtime counter model (`KernelInfo`,
  `Instrumenter`, `dumpCsv`);
* `gpu_functions.cpp`: `Instrumenter::reduceFlops`;
* `llvm_instr_counters.cpp`: the FLOP counter;
* `basic_block.hpp`: the block record and its JSON database;
* `cfg_instrumentation.cpp`: the CFG instrumentation pass
  (`KernelCfgInstrumenter`).

Conventions of the embedding.

* `unsigned int` / `uint32_t` values are natural numbers below `2 ^ 32`;
  every unsigned operation of the source is followed by `toUInt`
  (reduction modulo `2 ^ 32`). The numeric fields of `KernelInfo`,
  `BlockUsage` and `BasicBlock` and the counters of the visitors are of
  these types.
* A `for (auto i = 0u; i < bound; ++i)` loop, whose counter is unsigned like
  its bound, is `forLoop body bound 0`: the body runs for
  `i = 0, 1, .., bound - 1` in that order.
* A `for (auto i = 0; i < bound; ++i)` loop, whose counter is an `int`, is
  `intLoop body bound 0`: the same, but the increment of a counter that holds
  `INT_MAX` is undefined behaviour.
* Undefined behaviour of the source is an explicit result: a read of a
  `std::vector` outside its bounds or the overflow of an `int` makes the
  function return `none`, and
  `front()` of an empty CFG block or the use of a null CFG ends a run with
  `Outcome.undefinedBehaviour`.
* An exception is the result `Outcome.threw` with the message of the
  `std::runtime_error`.
* Collaborators outside the repository (the device runtime, the file system,
  the clang CFG, edit set and rewriter) appear as parameters or are modelled
  at the interface the code uses; this is said at each definition.
-/

namespace hip

/-! ## Machine integers and loops -/

/-- Number of values of a 32-bit unsigned integer. -/
abbrev UINT_RANGE : Nat := 4294967296

/-- Conversion to `unsigned int`: arithmetic modulo `2 ^ 32`. -/
def toUInt (n : Nat) : Nat := n % UINT_RANGE

/-- The loop `for (i = start; <count more iterations>; ++i) body`, where the
body may fail. `forLoop body bound 0 s` is `for (i = 0; i < bound; ++i)`. -/
def forLoop {σ : Type} (body : Nat → σ → Option σ) : Nat → Nat → σ → Option σ
  | 0, _, s => some s
  | count + 1, i, s =>
    match body i s with
    | some s' => forLoop body count (i + 1) s'
    | none => none

/-- Largest value of an `int`. -/
abbrev INT_MAX : Nat := 2147483647

/-- The loop `for (auto i = 0; i < bound; ++i) body`, whose counter is an `int`
(the type of the literal `0`) that the test converts to the unsigned type of
the bound. `intLoop body count i s` runs `count` more iterations from the
counter value `i`; `intLoop body bound 0 s` is the loop of the source. The
body may fail. After each iteration the counter is incremented: `++i` on
`INT_MAX` overflows the `int`, which is undefined behaviour (`none`). -/
def intLoop {σ : Type} (body : Nat → σ → Option σ) : Nat → Nat → σ → Option σ
  | 0, _, s => some s
  | count + 1, i, s =>
    match body i s with
    | some s' => if i < INT_MAX then intLoop body count (i + 1) s' else none
    | none => none

/-! ## Basic blocks (`basic_block.hpp`) -/

/-- The record `hip::BasicBlock`: block id, static flops estimate and the two
source locations (owned strings in the source). `id` and `flops` are
`unsigned int`. -/
structure BasicBlock where
  id : Nat
  flops : Nat
  begin_loc : String
  end_loc : String
  deriving DecidableEq, Repr

/-! ## Runtime counter model (`hip_instrumentation.cpp`) -/

/-- Shape descriptor of an instrumented kernel. The fields are `uint32_t` /
`unsigned int` in the source (see `KernelInfo.WellTyped`). -/
structure KernelInfo where
  name : String
  total_blocks : Nat
  total_threads_per_blocks : Nat
  basic_blocks : Nat
  instr_size : Nat

/-- Every numeric field of the descriptor is a 32-bit unsigned value. -/
def KernelInfo.WellTyped (ki : KernelInfo) : Prop :=
  ki.total_blocks < UINT_RANGE ∧ ki.total_threads_per_blocks < UINT_RANGE ∧
    ki.basic_blocks < UINT_RANGE ∧ ki.instr_size < UINT_RANGE

/-- One counting session: the kernel descriptor, the host counter buffer
(`std::vector<counter_t>`), the creation time stamp, and the block database
`blocks` read by `reduceFlops`. -/
structure Instrumenter where
  kernel_info : KernelInfo
  host_counters : List Nat
  stamp : Nat
  blocks : List BasicBlock

/-- The constructor `Instrumenter::Instrumenter(KernelInfo& ki)`: a buffer of
`ki.instr_size` zero cells; `now` is the clock reading in microseconds. The
constructor does not load the block database. -/
def Instrumenter.new (ki : KernelInfo) (now : Nat) : Instrumenter :=
  { kernel_info := ki, host_counters := List.replicate ki.instr_size 0, stamp := now,
    blocks := [] }

/-- What the constructor establishes and `fromDevice` preserves: the
descriptor is well typed, the buffer has `instr_size` cells, and every cell
is an unsigned value of at most 32 bits (so that
`static_cast<unsigned int>` keeps its value). -/
def Instrumenter.Valid (inst : Instrumenter) : Prop :=
  inst.kernel_info.WellTyped ∧
    inst.host_counters.length = inst.kernel_info.instr_size ∧
    ∀ c ∈ inst.host_counters, c < UINT_RANGE

/-- `Instrumenter::autoFilenamePrefix`. -/
def Instrumenter.autoFilenamePrefix (inst : Instrumenter) : String :=
  inst.kernel_info.name ++ "_" ++ toString inst.stamp

/-- The index expression of `dumpCsv`,
`block * total_threads_per_blocks * basic_blocks + thread * basic_blocks + bblock`,
evaluated left to right in `unsigned int` (the `int` loop variables are
converted to unsigned by the multiplication with an unsigned field). -/
def flatIndex (ki : KernelInfo) (block thread bblock : Nat) : Nat :=
  toUInt (toUInt (toUInt (toUInt (block * ki.total_threads_per_blocks) * ki.basic_blocks)
    + toUInt (thread * ki.basic_blocks)) + bblock)

/-- The header line written first by `dumpCsv`. -/
def csvHeader : String := "block,thread,bblock,count\n"

/-- One data row of the trace: `block,thread,bblock,count` and a newline. -/
def csvLine (block thread bblock count : Nat) : String :=
  toString block ++ "," ++ toString thread ++ "," ++ toString bblock ++ "," ++
    toString count ++ "\n"

/-- A file written by a dump operation. -/
structure WrittenFile where
  filename : String
  content : String
  deriving DecidableEq, Repr

/-- A `std::ofstream`: the path it was opened on, whether the file could be
opened, and the text written to the file. A stream whose file could not be
opened is in a failed state. -/
structure OfStream where
  filename : String
  is_open : Bool
  content : String
  deriving DecidableEq, Repr

/-- The constructor `std::ofstream out(filename)`: it creates the file empty
(or truncates it) if the file system lets it; `can_open` tells for which
paths it does. -/
def OfStream.new (can_open : String → Bool) (filename : String) : OfStream :=
  { filename := filename, is_open := can_open filename, content := "" }

/-- The insertion `out << text`: on a stream in a failed state it does
nothing; a write to an open stream is taken to succeed. -/
def OfStream.put (out : OfStream) (text : String) : OfStream :=
  if out.is_open then { out with content := out.content ++ text } else out

/-- The call `out.close()`: what the stream has written, as the file at its
path; no file when the file could not be opened. -/
def OfStream.close (out : OfStream) : Option WrittenFile :=
  if out.is_open then some { filename := out.filename, content := out.content } else none

/-- `Instrumenter::dumpCsv(filename_in)` on a file system described by
`can_open`. The result is `none` when the behaviour is undefined (a read of
`host_counters` out of bounds, or the overflow of an `int` loop counter);
otherwise it is the file left at the path, `some none` when the file could
not be opened. The function returns `void` and reports no error. -/
def Instrumenter.dumpCsv (inst : Instrumenter) (can_open : String → Bool)
    (filename_in : String) : Option (Option WrittenFile) :=
  let filename :=
    if filename_in.isEmpty then inst.autoFilenamePrefix ++ ".csv" else filename_in
  let ki := inst.kernel_info
  let out := (OfStream.new can_open filename).put csvHeader
  let written :=
    intLoop (fun block out =>
      intLoop (fun thread out =>
        intLoop (fun bblock out =>
          let index := flatIndex ki block thread bblock
          match inst.host_counters[index]? with
          | some cell => some (out.put (csvLine block thread bblock (toUInt cell)))
          | none => none)
          ki.basic_blocks 0 out)
        ki.total_threads_per_blocks 0 out)
      ki.total_blocks 0 out
  match written with
  | some out => some out.close
  | none => none

/-! ## Two-phase reduction (`gpu_functions.cpp`) -/

/-- Reduction intermediate `hip::BlockUsage`: a `{count, flops}` pair of
`unsigned int`. -/
structure BlockUsage where
  count : Nat
  flops : Nat
  deriving DecidableEq, Repr

/-- Shape parameters handed to the reduction kernel, in the order of the
brace initialiser of `reduceFlops`. -/
structure LaunchGeometry where
  threads_per_block : Nat
  total_blocks : Nat
  basic_blocks : Nat
  deriving DecidableEq, Repr

/-- Status of a device runtime call (`hipError_t`). -/
abbrev hipError_t := Nat

/-- The status `hipSuccess`. -/
def hipSuccess : hipError_t := 0

/-- The device runtime calls of `reduceFlops`, in the vocabulary of its
trace. -/
inductive DeviceCall where
  | mallocBuffer
  | mallocOutput
  | mallocBlocksInfo
  | memcpyBlocksInfoToDevice
  | deviceSynchronize
  | launchReduceFlops
  | streamSynchronize
  | memcpyOutputToHost
  | freeOutput
  | freeBuffer
  | freeBlocksInfo
  deriving DecidableEq, Repr

/-- The collaborators of `reduceFlops` that are not part of the source file:
the status returned by the `n`-th runtime call, `hipGetErrorString`,
`BasicBlock::normalized`, and the content the reduction kernel leaves in
`output_ptr` (slot by slot) for a raw counter buffer, a geometry and the
normalised block data. -/
structure DeviceRuntime where
  status : Nat → hipError_t
  hipGetErrorString : hipError_t → String
  normalized : List BasicBlock → List BasicBlock
  kernelOutput : List Nat → LaunchGeometry → List BasicBlock → Nat → BlockUsage

/-- How a call of a throwing function ends: it returns a value, it throws
`std::runtime_error(what)`, or it runs into undefined behaviour (a read
outside a container, a null pointer dereference). -/
inductive Outcome (α : Type) where
  | returned (value : α)
  | threw (what : String)
  | undefinedBehaviour
  deriving DecidableEq, Repr

/-- A run of `reduceFlops`: the device runtime calls it issued, in order, and
how it ended. -/
structure ReduceRun where
  trace : List DeviceCall
  result : Outcome Nat
  deriving DecidableEq, Repr

/-- The message of the exception thrown for an empty block database. -/
def emptyDatabaseMessage : String := "BasicBlock::normalized : Empty vector"

/-- A runtime call wrapped in `hip::check`: the call is issued; if its status
is not `hipSuccess` the function throws
`"Encountered hip error " + hipGetErrorString(err)`, otherwise it goes on. -/
def checked (dev : DeviceRuntime) (call : DeviceCall) (trace : List DeviceCall)
    (next : List DeviceCall → ReduceRun) : ReduceRun :=
  let err := dev.status trace.length
  if err = hipSuccess then next (trace ++ [call])
  else { trace := trace ++ [call],
         result := .threw ("Encountered hip error " ++ dev.hipGetErrorString err) }

/-- The final reduction of `reduceFlops` (the two host loops): `flops` starts
at `0u` and `output[i * basic_blocks + bb].flops` is added for
`i < num_blocks`, `bb < basic_blocks`, all in `unsigned int`. -/
def finalReduction (num_blocks basic_blocks : Nat) (output : List BlockUsage) : Option Nat :=
  forLoop (fun i flops =>
    forLoop (fun bb flops =>
      match output[toUInt (toUInt (i * basic_blocks) + bb)]? with
      | some block_output => some (toUInt (flops + block_output.flops))
      | none => none)
      basic_blocks 0 flops)
    num_blocks 0 0

/-- `hip::Instrumenter::reduceFlops(device_ptr, stream)`. `device_ptr` is
represented by the raw counter buffer it points to, `stream` by `none` for the
null stream. Byte sizes of the allocations and copies are not modelled. -/
def Instrumenter.reduceFlops (inst : Instrumenter) (dev : DeviceRuntime)
    (device_ptr : List Nat) (stream : Option Nat) : ReduceRun :=
  if inst.blocks.isEmpty then
    { trace := [], result := .threw emptyDatabaseMessage }
  else
    let num_blocks := 128
    checked dev .mallocBuffer [] fun trace =>
    let output_len := toUInt (num_blocks * inst.kernel_info.basic_blocks)
    checked dev .mallocOutput trace fun trace =>
    let geometry : LaunchGeometry :=
      { threads_per_block := inst.kernel_info.total_threads_per_blocks,
        total_blocks := inst.kernel_info.total_blocks,
        basic_blocks := inst.kernel_info.basic_blocks }
    let blocks_info := dev.normalized inst.blocks
    checked dev .mallocBlocksInfo trace fun trace =>
    checked dev .memcpyBlocksInfoToDevice trace fun trace =>
    let synchronized (next : List DeviceCall → ReduceRun) : ReduceRun :=
      if stream.isNone then checked dev .deviceSynchronize trace next else next trace
    synchronized fun trace =>
    let trace := trace ++ [.launchReduceFlops]
    let fetched (next : List DeviceCall → ReduceRun) : ReduceRun :=
      if stream.isNone then checked dev .deviceSynchronize trace next
      else checked dev .streamSynchronize trace next
    fetched fun trace =>
    checked dev .memcpyOutputToHost trace fun trace =>
    let output := (List.range output_len).map (dev.kernelOutput device_ptr geometry blocks_info)
    checked dev .freeOutput trace fun trace =>
    checked dev .freeBuffer trace fun trace =>
    checked dev .freeBlocksInfo trace fun trace =>
    match finalReduction num_blocks inst.kernel_info.basic_blocks output with
    | some flops => { trace := trace, result := .returned flops }
    | none => { trace := trace, result := .undefinedBehaviour }

/-- Number of workers of the reduction grid: 128 blocks of 128 threads. -/
def reductionWorkers : Nat := 128 * 128

/-- Modelled from the spec: the reduction bucket of a raw counter cell. The
device kernel `hip::reduceFlops` of `reduction_kernels.hpp` is known by its
launch only; following the specification, the fixed grid of 128 × 128 workers
partitions the raw buffer, worker `w` strides over the cells `w`,
`w + 16384`, .., and its reduction bucket is its block `w / 128`. -/
def reductionBucket (cell : Nat) : Nat := cell % reductionWorkers / 128

/-- Modelled from the spec: phase 1 of the reduction (the device kernel
`hip::reduceFlops` of `reduction_kernels.hpp`, known by its launch only). The output
slot `bucket * basic_blocks + bb` accumulates, over the raw cells of that
bucket that belong to basic block `bb` (cell index modulo `basic_blocks`, by
the flattened layout), the raw count and the raw count multiplied by the
static cost of `bb`, in `unsigned int`. A basic block without an entry in
`blocks_info` has cost `0`. -/
def deviceReduceFlops (raw : List Nat) (geometry : LaunchGeometry)
    (blocks_info : List BasicBlock) (slot : Nat) : BlockUsage :=
  let bucket := slot / geometry.basic_blocks
  let bb := slot % geometry.basic_blocks
  let cost := (blocks_info.map BasicBlock.flops).getD bb 0
  let assigned := (List.range raw.length).filter fun cell =>
    reductionBucket cell = bucket ∧ cell % geometry.basic_blocks = bb
  assigned.foldl (fun usage cell =>
      { count := toUInt (usage.count + raw.getD cell 0),
        flops := toUInt (usage.flops + toUInt (raw.getD cell 0 * cost)) })
    { count := 0, flops := 0 }

/-- The two-phase reduction of a raw counter buffer with static costs
`blocks_info`: the device phase fills the `128 * basic_blocks` (in
`unsigned int`) output slots, the host phase is `finalReduction`. -/
def reduce (geometry : LaunchGeometry) (blocks_info : List BasicBlock) (raw : List Nat) :
    Option Nat :=
  finalReduction 128 geometry.basic_blocks
    ((List.range (toUInt (128 * geometry.basic_blocks))).map
      (deviceReduceFlops raw geometry blocks_info))

/-- A device on which every runtime call succeeds and whose reduction kernel
is the modelled phase 1; `normalized` stands for `BasicBlock::normalized`. -/
def modelledDevice (normalized : List BasicBlock → List BasicBlock) : DeviceRuntime :=
  { status := fun _ => hipSuccess,
    hipGetErrorString := fun _ => "",
    normalized := normalized,
    kernelOutput := deviceReduceFlops }

/-- The launch geometry that `reduceFlops` builds from the kernel
descriptor. -/
def KernelInfo.geometry (ki : KernelInfo) : LaunchGeometry :=
  { threads_per_block := ki.total_threads_per_blocks, total_blocks := ki.total_blocks,
    basic_blocks := ki.basic_blocks }

/-- The outcome with its returned value mapped. -/
def Outcome.map {α β : Type} (f : α → β) : Outcome α → Outcome β
  | .returned a => .returned (f a)
  | .threw what => .threw what
  | .undefinedBehaviour => .undefinedBehaviour

/-- The outcome of a computation whose only failure is undefined
behaviour. -/
def Outcome.ofOption {α : Type} : Option α → Outcome α
  | some a => .returned a
  | none => .undefinedBehaviour

/-- An output slot whose flops is its count times the static cost of its
basic block (the slot index modulo the number of basic blocks). -/
def usageOfCount (costs : List Nat) (slot count : Nat) : BlockUsage :=
  { count := count, flops := toUInt (count * costs.getD (slot % costs.length) 0) }

/-- The output buffer of the scenario: static costs `[3, 5]`, two basic
blocks, 128 reduction blocks; bucket counts `(block0,bb0) = 4`,
`(block0,bb1) = 2`, `(block1,bb0) = 1`, `(block1,bb1) = 0`, every other slot
zero. -/
def scenarioOutput : List BlockUsage :=
  (List.range 256).map fun slot => usageOfCount [3, 5] slot ([4, 2, 1, 0].getD slot 0)

/-! ## Static cost analyzer (`llvm_instr_counters.cpp`) -/

/-- Opcode of an LLVM instruction: the opcodes that the counters of
`llvm_instr_counters.cpp` name, the unary floating-point negation `FNeg`
(which they do not name), and `other` for every other opcode (`code` is the
LLVM opcode number). -/
inductive Opcode where
  | FAdd | FSub | FMul | FDiv | FRem
  | FPToUI | FPToSI | UIToFP | SIToFP
  | FPTrunc | FPExt
  | FCmp
  | Load | Store | GetElementPtr
  | FNeg
  | other (code : Nat)
  deriving DecidableEq, Repr

/-- An instruction of an `llvm::BasicBlock`, as far as the counters look at
it: its opcode and, for an instruction with a pointer operand,
`getPointerOperandType()->getContainedType(0)->getPrimitiveSizeInBits()`. -/
structure Instruction where
  opcode : Opcode
  pointee_bits : Nat
  deriving DecidableEq, Repr

/-- The visitor `FlopCounter`: its running counter `count`, an
`unsigned int`. -/
structure FlopCounter where
  count : Nat
  deriving DecidableEq, Repr

/-- A freshly constructed counter. -/
def FlopCounter.new : FlopCounter := { count := 0 }

/-- The `switch` of `FlopCounter::operator()`: the cases that reach
`++count`. -/
def FlopCounter.counts : Opcode → Bool
  | .FAdd | .FSub | .FMul | .FDiv | .FRem => true
  | .FPToUI | .FPToSI | .UIToFP | .SIToFP => true
  | .FPTrunc | .FPExt => true
  | .FCmp => true
  | _ => false

/-- `FlopCounter::operator()(bb)`: visits the instructions in order,
increments `count` (in `unsigned int`) on a counted opcode, and returns
`getCount()`. The result is the counter after the call and the value
returned. -/
def FlopCounter.call (c : FlopCounter) (bb : List Instruction) : FlopCounter × Nat :=
  let after := bb.foldl (fun (c : FlopCounter) instr =>
    if FlopCounter.counts instr.opcode then { count := toUInt (c.count + 1) } else c) c
  (after, after.count)

/-- Binary floating-point arithmetic: `fadd`, `fsub`, `fmul`, `fdiv`,
`frem`. -/
def Opcode.isBinaryFloatArithmetic (op : Opcode) : Prop :=
  op = .FAdd ∨ op = .FSub ∨ op = .FMul ∨ op = .FDiv ∨ op = .FRem

/-- Floating-point arithmetic: the binary operations and the negation
`fneg`. -/
def Opcode.isFloatArithmetic (op : Opcode) : Prop :=
  op.isBinaryFloatArithmetic ∨ op = .FNeg

/-- A floating/integer conversion: from floating point to integer (`fptoui`,
`fptosi`) or from integer to floating point (`uitofp`, `sitofp`). -/
def Opcode.isFloatIntConversion (op : Opcode) : Prop :=
  op = .FPToUI ∨ op = .FPToSI ∨ op = .UIToFP ∨ op = .SIToFP

/-- A conversion between floating-point widths: the truncation `fptrunc` or
the extension `fpext`. -/
def Opcode.isFloatWidthConversion (op : Opcode) : Prop :=
  op = .FPTrunc ∨ op = .FPExt

/-- Floating-point comparison: `fcmp`. -/
def Opcode.isFloatComparison (op : Opcode) : Prop := op = .FCmp

instance (op : Opcode) : Decidable op.isBinaryFloatArithmetic := by
  unfold Opcode.isBinaryFloatArithmetic; infer_instance

instance (op : Opcode) : Decidable op.isFloatArithmetic := by
  unfold Opcode.isFloatArithmetic; infer_instance

instance (op : Opcode) : Decidable op.isFloatIntConversion := by
  unfold Opcode.isFloatIntConversion; infer_instance

instance (op : Opcode) : Decidable op.isFloatWidthConversion := by
  unfold Opcode.isFloatWidthConversion; infer_instance

instance (op : Opcode) : Decidable op.isFloatComparison := by
  unfold Opcode.isFloatComparison; infer_instance

/-- Number of instructions of a block that are floating-point arithmetic, a
floating/integer conversion or a floating comparison. -/
def floatInstructions (bb : List Instruction) : Nat :=
  (bb.filter fun instr => instr.opcode.isFloatArithmetic ∨
    instr.opcode.isFloatIntConversion ∨ instr.opcode.isFloatComparison).length

/-- An opcode of one of the four groups: binary floating-point arithmetic,
floating/integer conversion, floating-point truncation or extension, floating
comparison. -/
def Opcode.isFlop (op : Opcode) : Prop :=
  op.isBinaryFloatArithmetic ∨ op.isFloatIntConversion ∨ op.isFloatWidthConversion ∨
    op.isFloatComparison

instance (op : Opcode) : Decidable op.isFlop := by
  unfold Opcode.isFlop; infer_instance

/-- Number of instructions of a block whose opcode is binary floating-point
arithmetic, a floating/integer conversion, a floating-point truncation or
extension, or a floating comparison. -/
def flopInstructions (bb : List Instruction) : Nat :=
  (bb.filter fun instr => instr.opcode.isFlop).length

/-! ## Block cost database (`basic_block.hpp`) -/

/-- A JSON document. The specification treats the text mechanics of JSON as
a black-box codec; a serialised text is represented by the document it
denotes. -/
inductive Json where
  | null
  | bool (b : Bool)
  | num (n : Nat)
  | str (s : String)
  | arr (items : List Json)
  | obj (members : List (String × Json))

/-- The member of an object with the given key, if any. -/
def Json.member (key : String) : Json → Option Json
  | .obj members => (members.find? fun m => m.1 == key).map fun m => m.2
  | _ => none

/-- The value of a document that is an unsigned 32-bit number. -/
def Json.asUInt : Json → Option Nat
  | .num n => if n < UINT_RANGE then some n else none
  | _ => none

/-- The value of a document that is a string. -/
def Json.asString : Json → Option String
  | .str s => some s
  | _ => none

/-- Failure of the database loader on a text that is not of the schema. -/
inductive ParseFailure where
  | malformed
  deriving DecidableEq, Repr

/-- Modelled from the spec: `BasicBlock::json`, of which `basic_block.hpp`
gives the declaration only. A block is serialised to the object
`{id: uint, flops: uint, begin: string, end: string}` of the database
schema. -/
def BasicBlock.json (b : BasicBlock) : Json :=
  .obj [("id", .num b.id), ("flops", .num b.flops), ("begin", .str b.begin_loc),
    ("end", .str b.end_loc)]

/-- Modelled from the spec: `BasicBlock::jsonArray`, of which
`basic_block.hpp` gives the declaration only. The database is the JSON array
of the serialised blocks, in order. -/
def BasicBlock.jsonArray (blocks : List BasicBlock) : Json :=
  .arr (blocks.map BasicBlock.json)

/-- Modelled from the spec: `BasicBlock::fromJson`, of which
`basic_block.hpp` gives the declaration only. An object with members `id` and
`flops` (unsigned numbers) and
`begin` and `end` (strings) is read back as a block; any other document is a
`ParseFailure`. -/
def BasicBlock.fromJson (j : Json) : Except ParseFailure BasicBlock :=
  match (j.member "id").bind Json.asUInt, (j.member "flops").bind Json.asUInt,
      (j.member "begin").bind Json.asString, (j.member "end").bind Json.asString with
  | some id, some flops, some begin_loc, some end_loc =>
    .ok { id := id, flops := flops, begin_loc := begin_loc, end_loc := end_loc }
  | _, _, _, _ => .error .malformed

/-- Modelled from the spec: `BasicBlock::fromJsonArray`, of which
`basic_block.hpp` gives the declaration only. A JSON array is read back
element by element, in order; a
document that is not an array, or an element that is not a block, is a
`ParseFailure`. -/
def BasicBlock.fromJsonArray (j : Json) : Except ParseFailure (List BasicBlock) :=
  match j with
  | .arr items => items.mapM BasicBlock.fromJson
  | _ => .error .malformed

/-- The fields `id` and `flops` of a block are `unsigned int`. -/
def BasicBlock.WellTyped (b : BasicBlock) : Prop :=
  b.id < UINT_RANGE ∧ b.flops < UINT_RANGE

instance (b : BasicBlock) : Decidable b.WellTyped := by
  unfold BasicBlock.WellTyped; infer_instance

/-! ## CFG instrumentation pass (`cfg_instrumentation.cpp`) -/

/-- A source location, decomposed as `Replacement` does: the path of the file
it lies in and the offset in that file. -/
structure SourceLocation where
  filePath : String
  offset : Nat
  deriving DecidableEq, Repr

/-- An element of a CFG block, as far as the pass looks at it: a statement
(`getAs<clang::CFGStmt>()` has a value) with the begin location of the
statement, or an element of another kind. -/
inductive CFGElement where
  | statement (begin_loc : SourceLocation)
  | other (kind : Nat)
  deriving DecidableEq, Repr

/-- A block of the CFG: `getBlockID()` and its elements, first element
first. -/
structure CFGBlock where
  blockID : Nat
  elements : List CFGElement
  deriving DecidableEq, Repr

/-- A control-flow graph: its blocks in iteration order. -/
abbrev CFG := List CFGBlock

/-- The first element of the block is a plain statement. -/
def CFGBlock.startsWithStatement (block : CFGBlock) : Prop :=
  ∃ loc, block.elements.head? = some (.statement loc)

instance (block : CFGBlock) : Decidable block.startsWithStatement :=
  match h : block.elements.head? with
  | some (.statement loc) => isTrue ⟨loc, h⟩
  | some (.other _) => isFalse (by rintro ⟨loc, hl⟩; rw [h] at hl; cases hl)
  | none => isFalse (by rintro ⟨loc, hl⟩; rw [h] at hl; cases hl)

/-- A function declaration bound by the matcher, as far as the pass looks at
it: what `CFG::buildCFG` returns for its body (`none` for a null pointer). -/
structure FunctionDecl where
  cfg : Option CFG
  deriving DecidableEq, Repr

/-- The match result handed to `run`: the node bound to a name
(`Nodes.getNodeAs<clang::FunctionDecl>`), and the path and text of the main
file of the source manager. -/
structure MatchResult where
  nodes : String → Option FunctionDecl
  mainFilePath : String
  mainFileText : String

/-- The free function `generateBlockCode(id)` of `cfg_instrumentation.cpp`. -/
def generateBlockCode (id : Nat) : String :=
  "/* BB " ++ toString id ++ " */" ++ "\n"

/-- A `clang::tooling::Replacement`: file path, offset, length of the replaced
range and replacement text. -/
structure Replacement where
  filePath : String
  offset : Nat
  length : Nat
  text : String
  deriving DecidableEq, Repr

/-- The errors of `Replacements::add` that an insertion can meet. -/
inductive ReplacementError where
  | wrong_file_path
  | insert_conflict
  deriving DecidableEq, Repr

/-- Insertion of an entry into the ordered set, before the first entry with
a larger offset. -/
def Replacements.insertSorted (R : Replacement) : List Replacement → List Replacement
  | [] => [R]
  | I :: rest =>
    if R.offset < I.offset then R :: I :: rest else I :: Replacements.insertSorted R rest

/-- The external `clang::tooling::Replacements::add`, for the edit sets of
this pass, whose entries are all insertions (length 0). The set is kept
ordered by offset. A replacement for another file than the entries of the set
is refused. If the set has an insertion `I` at the offset of `R`, the two
conflict unless they are order-independent (`R.text + I.text` equals
`I.text + R.text`), in which case they are merged into one insertion;
otherwise `R` is inserted. -/
def Replacements.add (reps : List Replacement) (R : Replacement) :
    Except ReplacementError (List Replacement) :=
  if (match reps.head? with
      | some first => R.filePath != first.filePath
      | none => false) then
    .error .wrong_file_path
  else
    match reps.find? (fun I => I.offset == R.offset) with
    | some I =>
      if R.text ++ I.text != I.text ++ R.text then .error .insert_conflict
      else
        .ok (Replacements.insertSorted
          { filePath := R.filePath, offset := R.offset, length := 0, text := R.text ++ I.text }
          (reps.filter fun J => J.offset != R.offset))
    | none => .ok (Replacements.insertSorted R reps)

/-- What the pass prints on the console (`std::cout` and the `dump` calls),
by kind of output. -/
inductive ConsoleOutput where
  | dumpFunctionDecl
  | dumpCfg
  | blockHeader (id : Nat)
  | dumpLocation (loc : SourceLocation)
  | dumpStmt
  | replacement (rep : Replacement)
  deriving DecidableEq, Repr

/-- The stream `output_file` (`llvm::raw_fd_ostream`): its path, the text
written to it so far, and whether it has been closed. -/
structure OutputFile where
  path : String
  written : String
  closed : Bool
  deriving DecidableEq, Repr

/-- The source manager of a match result, as far as the pass looks at it:
the path and the text of the main file. -/
structure SourceManager where
  mainFilePath : String
  mainFileText : String
  deriving DecidableEq, Repr

/-- The source manager `*Result.SourceManager` of a match result. -/
def MatchResult.SourceManager (Result : MatchResult) : SourceManager :=
  { mainFilePath := Result.mainFilePath, mainFileText := Result.mainFileText }

/-- The external `clang::Rewriter`, at the interface the pass uses: the source
manager it is bound to (`none` before the first `setSourceMgr`) and the
replacements applied to it so far, in order of application; they determine
its rewrite buffers. -/
structure Rewriter where
  SourceMgr : Option SourceManager
  applied : List Replacement
  deriving DecidableEq, Repr

/-- `Rewriter::setSourceMgr`: binds the rewriter to a source manager and
leaves its rewrite buffers as they are. -/
def Rewriter.setSourceMgr (self : Rewriter) (SM : SourceManager) : Rewriter :=
  { self with SourceMgr := some SM }

/-- The callback object `KernelCfgInstrumenter`: the kernel name, the member
`kernel` returned by `getKernel()` (a null pointer is `none`), the rewriter
and the output stream. -/
structure KernelCfgInstrumenter where
  name : String
  kernel : Option FunctionDecl
  rewriter : Rewriter
  output_file : OutputFile
  deriving DecidableEq, Repr

/-- The constructor `KernelCfgInstrumenter(kernel_name, output_filename)`:
it opens `output_file` on the output path, which creates the file empty (or
truncates it) if the path can be opened (`error_code`, which tells whether it
could, is never read); `kernel` is initialised to the null pointer and
`rewriter` is default-constructed. -/
def KernelCfgInstrumenter.new (kernel_name output_filename : String) : KernelCfgInstrumenter :=
  { name := kernel_name,
    kernel := none,
    rewriter := { SourceMgr := none, applied := [] },
    output_file := { path := output_filename, written := "", closed := false } }

/-- `KernelCfgInstrumenter::getKernel()`. -/
def KernelCfgInstrumenter.getKernel (self : KernelCfgInstrumenter) : Option FunctionDecl :=
  self.kernel

/-- State of the block loop of `run`: the console output so far, the
replacements created and added (in order), and the edit set `reps`. -/
structure LoopState where
  console : List ConsoleOutput
  insertions : List Replacement
  reps : List Replacement
  deriving DecidableEq, Repr

/-- The message of the exception thrown when `reps.add` fails. -/
def incompatibleEditMessage : String := "Incompatible edit encountered"

/-- The loop `for (auto block : *cfg.get())` of `run`, from a given state:
the state when the loop ends and how it ends. `block->front()` on a block
without elements is undefined behaviour. -/
def instrumentBlocks : List CFGBlock → LoopState → LoopState × Outcome Unit
  | [], st => (st, .returned ())
  | block :: rest, st =>
    let id := block.blockID
    let st := { st with console := st.console ++ [.blockHeader id] }
    match block.elements.head? with
    | none => (st, .undefinedBehaviour)
    | some (.statement begin_loc) =>
      let rep : Replacement :=
        { filePath := begin_loc.filePath, offset := begin_loc.offset, length := 0,
          text := generateBlockCode id }
      let st := { st with
        console := st.console ++ [.dumpLocation begin_loc, .dumpStmt, .replacement rep] }
      match Replacements.add st.reps rep with
      | .error _ => (st, .threw incompatibleEditMessage)
      | .ok reps =>
        instrumentBlocks rest { st with insertions := st.insertions ++ [rep], reps := reps }
    | some (.other _) => instrumentBlocks rest st

/-- The state in which `run` enters the block loop. -/
def initialLoopState : LoopState :=
  { console := [.dumpFunctionDecl, .dumpCfg], insertions := [], reps := [] }

/-- The edit buffer of the main file of a rewriter to which the replacements
`applied` have been applied in that order: every replacement of the main file
stands at its offset in the original text, and the insertions at one offset
stand in the order of their application. The replacements are put in order of
offset and placed in the text from the last to the first. -/
def editBuffer (mainFilePath mainFileText : String) (applied : List Replacement) : String :=
  String.mk (((applied.filter fun rep => rep.filePath == mainFilePath).foldl
      (fun ordered rep => Replacements.insertSorted rep ordered) []).foldr
    (fun rep text => text.take rep.offset ++ rep.text.data ++ text.drop (rep.offset + rep.length))
    mainFileText.data)

/-- A run of `KernelCfgInstrumenter::run`: how it ended, the console output,
the replacements created and added to the edit set (in order), the edit set
when the run ended, the replacements applied to the rewriter, and the callback
object after the run. -/
structure PassRun where
  outcome : Outcome Unit
  console : List ConsoleOutput
  insertions : List Replacement
  reps : List Replacement
  applied : List Replacement
  after : KernelCfgInstrumenter
  deriving DecidableEq, Repr

/-- The state of `output_file` after the run. -/
def PassRun.output_file (run : PassRun) : OutputFile := run.after.output_file

/-- `KernelCfgInstrumenter::run(Result)`. The rewriter is bound to the source
manager of the match result before the kernel is looked up. The assignment
`kernel = match` is commented out in the source: the member `kernel` is never
written. -/
def KernelCfgInstrumenter.run (self : KernelCfgInstrumenter) (Result : MatchResult) : PassRun :=
  let rewriter := self.rewriter.setSourceMgr Result.SourceManager
  match Result.nodes self.name with
  | none =>
    { outcome := .returned (), console := [], insertions := [], reps := [], applied := [],
      after := { self with rewriter := rewriter } }
  | some decl =>
    match decl.cfg with
    | none =>
      { outcome := .undefinedBehaviour, console := [.dumpFunctionDecl], insertions := [],
        reps := [], applied := [], after := { self with rewriter := rewriter } }
    | some cfg =>
      match instrumentBlocks cfg initialLoopState with
      | (st, .returned ()) =>
        if !st.reps.isEmpty then
          { outcome := .returned (), console := st.console, insertions := st.insertions,
            reps := st.reps, applied := st.reps,
            after :=
              { self with
                rewriter := { rewriter with applied := rewriter.applied ++ st.reps },
                output_file :=
                  { self.output_file with
                    written := self.output_file.written ++
                      editBuffer Result.mainFilePath Result.mainFileText
                        (rewriter.applied ++ st.reps),
                    closed := true } } }
        else
          { outcome := .returned (), console := st.console, insertions := st.insertions,
            reps := st.reps, applied := [], after := { self with rewriter := rewriter } }
      | (st, outcome) =>
        { outcome := outcome, console := st.console, insertions := st.insertions,
          reps := st.reps, applied := [], after := { self with rewriter := rewriter } }

/-- A run reports something to its caller or user: it does not return
normally, or it prints on the console, or it changes what the callback object
shows: its output stream, or the member read by `getKernel()`. (The member
`rewriter` is private and nothing reads it from outside.) -/
def PassRun.Reports (run : PassRun) (before : KernelCfgInstrumenter) : Prop :=
  run.outcome ≠ .returned () ∨ run.console ≠ [] ∨
    run.after.output_file ≠ before.output_file ∨ run.after.getKernel ≠ before.getKernel

instance (run : PassRun) (before : KernelCfgInstrumenter) : Decidable (run.Reports before) := by
  unfold PassRun.Reports; infer_instance

/-- A kernel whose CFG has two blocks with a first statement each. -/
def scenarioCfg : CFG :=
  [{ blockID := 0, elements := [.statement ⟨"kernel.cpp", 65⟩] },
   { blockID := 1, elements := [.statement ⟨"kernel.cpp", 35⟩, .other 3] }]

/-- A match result in which the name `kernel` is bound to a declaration with
the given CFG, and no other name is bound. -/
def scenarioMatch (cfg : CFG) : MatchResult :=
  { nodes := fun name => if name = "kernel" then some { cfg := some cfg } else none,
    mainFilePath := "kernel.cpp",
    mainFileText := "__global__ void kernel(float* a) { a[0] = 1.f; if (a[1] > 0.f) { a[1] = 0.f; } }" }

/-- Value of a list of decimal digit characters. -/
def decimalValue (cs : List Char) : Nat :=
  cs.foldl (fun acc c => 10 * acc + (c.toNat - 48)) 0

/-- The edit set `reps` holds exactly the insertions of the blocks processed
so far that start with a statement: every entry is the insertion of such a
block, and every such block has an entry at the offset of its statement. -/
def EditSetOf (processed : List CFGBlock) (reps : List Replacement) : Prop :=
  (∀ e ∈ reps, ∃ b ∈ processed, ∃ loc, b.elements.head? = some (.statement loc) ∧
    e = { filePath := loc.filePath, offset := loc.offset, length := 0,
          text := generateBlockCode b.blockID }) ∧
  (∀ b ∈ processed, ∀ loc, b.elements.head? = some (.statement loc) →
    ∃ e ∈ reps, e.offset = loc.offset)

/-! ## Rows of the CSV trace, as the specification describes them -/

/-- A data row of the CSV trace. -/
structure CsvRow where
  block : Nat
  thread : Nat
  bblock : Nat
  count : Nat
  deriving DecidableEq, Repr

/-- The text of a data row. -/
def CsvRow.text (r : CsvRow) : String := csvLine r.block r.thread r.bblock r.count

/-- The `(block, thread, bblock)` key of a row. -/
def CsvRow.key (r : CsvRow) : Nat × Nat × Nat := (r.block, r.thread, r.bblock)

/-- Strict lexicographic order on the `(block, thread, bblock)` key of rows. -/
def CsvRow.keyLt (r s : CsvRow) : Prop :=
  r.block < s.block ∨ (r.block = s.block ∧
    (r.thread < s.thread ∨ (r.thread = s.thread ∧ r.bblock < s.bblock)))

/-- The header followed by the given rows, in order. -/
def csvText (rows : List CsvRow) : String :=
  rows.foldl (fun out r => out ++ r.text) csvHeader

/-- One row per triple `(b, t, n)` with `b < B`, `t < T`, `n < N`, blocks
outermost and basic blocks innermost, each with the cell at
`b * T * N + t * N + n`. -/
def tripleRows (B T N : Nat) (cells : List Nat) : List CsvRow :=
  (List.range B).flatMap fun b =>
    (List.range T).flatMap fun t =>
      (List.range N).map fun n =>
        { block := b, thread := t, bblock := n,
          count := cells.getD (b * T * N + t * N + n) 0 }

/-- The instrumenter of the scenario `total_blocks = 2`,
`threads_per_block = 2`, `basic_blocks = 2`, `instr_size = 8`,
`host_counters = [1,0,1,1,0,0,1,1]`. -/
def scenarioInstrumenter : Instrumenter :=
  { kernel_info :=
      { name := "kernel", total_blocks := 2, total_threads_per_blocks := 2,
        basic_blocks := 2, instr_size := 8 },
    host_counters := [1, 0, 1, 1, 0, 0, 1, 1],
    stamp := 0,
    blocks := [] }

/-- An instrumenter of shape `(B, T, N)` with a buffer of `B * T * N` zero
cells. -/
def zeroInstrumenter (B T N : Nat) : Instrumenter :=
  { kernel_info :=
      { name := "kernel", total_blocks := B, total_threads_per_blocks := T,
        basic_blocks := N, instr_size := B * T * N },
    host_counters := List.replicate (B * T * N) 0,
    stamp := 0,
    blocks := [] }

/-- Static costs 3 and 5 for the two basic blocks of the scenario. -/
def scenarioCosts : List BasicBlock := [⟨0, 3, "a", "b"⟩, ⟨1, 5, "c", "d"⟩]

/-- A device on which every call succeeds and whose reduction kernel leaves
the scenario output in `output_ptr`. -/
def scenarioDevice : DeviceRuntime :=
  { status := fun _ => hipSuccess,
    hipGetErrorString := fun _ => "",
    normalized := fun blocks => blocks,
    kernelOutput := fun _ _ _ slot => scenarioOutput.getD slot ⟨0, 0⟩ }

/-- The instrumenter of the reduction scenario: two basic blocks with static
costs 3 and 5. -/
def scenarioReducer : Instrumenter :=
  { kernel_info :=
      { name := "kernel", total_blocks := 2, total_threads_per_blocks := 2,
        basic_blocks := 2, instr_size := 8 },
    host_counters := [1, 0, 1, 1, 0, 0, 1, 1],
    stamp := 0,
    blocks := scenarioCosts }

/-! ## Memory visitors (`llvm_instr_counters.cpp`) -/

/-- The constant `bits_per_byte`. -/
def bits_per_byte : Nat := 8

/-- The visitor `StoreCounter`: its running counter `count`, an
`unsigned int`. -/
structure StoreCounter where
  count : Nat
  deriving DecidableEq, Repr

/-- The visitor `LoadCounter`: its running counter `count`, an
`unsigned int`. -/
structure LoadCounter where
  count : Nat
  deriving DecidableEq, Repr

/-- `StoreCounter::operator()(bb)`: for every instruction that is a
`StoreInst`, `count += getPrimitiveSizeInBits() / bits_per_byte` of the type
its pointer operand points to (in `unsigned int`); returns `getCount()`. The
result is the counter after the call and the value returned. -/
def StoreCounter.call (c : StoreCounter) (bb : List Instruction) : StoreCounter × Nat :=
  let after := bb.foldl (fun (c : StoreCounter) instr =>
    if instr.opcode = .Store then
      { count := toUInt (c.count + instr.pointee_bits / bits_per_byte) }
    else c) c
  (after, after.count)

/-- `LoadCounter::operator()(bb)`: for every instruction that is a
`GetElementPtrInst`, and otherwise for every instruction that is a `LoadInst`,
`count += getPrimitiveSizeInBits() / bits_per_byte` of the type its pointer
operand points to (in `unsigned int`); returns `getCount()`. -/
def LoadCounter.call (c : LoadCounter) (bb : List Instruction) : LoadCounter × Nat :=
  let after := bb.foldl (fun (c : LoadCounter) instr =>
    if instr.opcode = .GetElementPtr then
      { count := toUInt (c.count + instr.pointee_bits / bits_per_byte) }
    else if instr.opcode = .Load then
      { count := toUInt (c.count + instr.pointee_bits / bits_per_byte) }
    else c) c
  (after, after.count)

/-- The bytes of an instruction: bit width of the pointee type, integer
division by 8. -/
def Instruction.pointeeBytes (instr : Instruction) : Nat := instr.pointee_bits / 8

/-- Sum of the pointee bytes of the stores of a block. -/
def storedBytes (bb : List Instruction) : Nat :=
  ((bb.filter fun instr => instr.opcode = .Store).map Instruction.pointeeBytes).sum

/-- Sum of the pointee bytes of the loads and of the element-address
computations of a block. -/
def loadedBytes (bb : List Instruction) : Nat :=
  ((bb.filter fun instr => instr.opcode = .Load ∨ instr.opcode = .GetElementPtr).map
    Instruction.pointeeBytes).sum

/-! ## Code generation templates (`instr_generator.cpp`) -/

/-- The generator `InstrGenerator`: the kernel name, the block count
`bb_count`, and the texts of the launch geometry set by `setGeometry`. -/
structure InstrGenerator where
  kernel_name : String
  bb_count : Nat
  blocks : String
  threads : String
  deriving DecidableEq, Repr

/-- `InstrGenerator::generateBlockCode(id)`: a comment line with `id` and
`bb_count`, then the increment statement, whose first index is `bb_count`. -/
def InstrGenerator.generateBlockCode (self : InstrGenerator) (id : Nat) : String :=
  "/* BB " ++ toString id ++ " (" ++ toString self.bb_count ++ ") */" ++ "\n" ++
    ("_bb_counters[" ++ toString self.bb_count ++ "][threadIdx.x] += 1;\n")

/-- `InstrGenerator::generateInstrumentationLocals()`. -/
def InstrGenerator.generateInstrumentationLocals (self : InstrGenerator) : String :=
  "\n/* Instrumentation locals */\n" ++
    ("__shared__ uint32_t _bb_counters[" ++ toString self.bb_count ++ "][64];\n" ++
      "unsigned int _bb_count = " ++ toString self.bb_count ++ ";\n")

/-- `InstrGenerator::generateInstrumentationCommit()`: the code emitted at
kernel exit, which reads the rows `i < _bb_count` of the table. -/
def InstrGenerator.generateInstrumentationCommit (_self : InstrGenerator) : String :=
  "/* Finalize instrumentation */\n" ++
    ("   int id = threadIdx.x;\n" ++
      "for (auto i = 0u; i < _bb_count; ++i) \x7b\n" ++
      "    printf(\" %d %d : %d\\n \", id, i, " ++
      "_bb_counters[i][threadIdx.x]);" ++
      "\x7d\n")

/-- The statement that increments the cell of the shared counter table with
the given first index and the thread index as second index. -/
def incrementStatement (first_index : Nat) : String :=
  "_bb_counters[" ++ toString first_index ++ "][threadIdx.x] += 1;\n"

/-- The declaration of the shared counter table with the given two
dimensions. -/
def tableDeclaration (rows capacity : Nat) : String :=
  "__shared__ uint32_t _bb_counters[" ++ toString rows ++ "][" ++ toString capacity ++ "];\n"

/-- A generator for a kernel of three basic blocks. -/
def scenarioGenerator : InstrGenerator :=
  { kernel_name := "kernel", bb_count := 3, blocks := "dim3(16)", threads := "dim3(64)" }

/-! ## Insertions of the pass, block by block -/

/-- The insertion of a block: for a block whose first element is a plain
statement, the replacement of length zero at the begin location of that
statement with the text `generateBlockCode(id)`; none for any other block. -/
def CFGBlock.insertion? (block : CFGBlock) : Option Replacement :=
  match block.elements.head? with
  | some (.statement begin_loc) =>
    some { filePath := begin_loc.filePath, offset := begin_loc.offset, length := 0,
           text := generateBlockCode block.blockID }
  | _ => none

/-- A CFG as clang builds it for a one-statement body: the exit block `B0`
and the entry block `B2` have no elements. -/
def emptyBlocksCfg : CFG :=
  [{ blockID := 0, elements := [] },
   { blockID := 1, elements := [.statement ⟨"kernel.cpp", 35⟩] },
   { blockID := 2, elements := [] }]

theorem forLoop_eq_foldl {σ : Type} (body : Nat → σ → Option σ) (g : σ → Nat → σ) :
    ∀ (count i : Nat) (s : σ),
      (∀ j s', i ≤ j → j < i + count → body j s' = some (g s' j)) →
      forLoop body count i s = some ((List.range' i count).foldl g s) := by
  intro count
  induction count with
  | zero => intro i s _; rfl
  | succ k ih =>
    intro i s h
    have h0 : body i s = some (g s i) := h i s (Nat.le_refl i) (by omega)
    have hk : forLoop body k (i + 1) (g s i)
        = some ((List.range' (i + 1) k).foldl g (g s i)) :=
      ih (i + 1) (g s i) (fun j s' h1 h2 => h j s' (by omega) (by omega))
    simp only [forLoop, h0, hk, List.range'_succ, List.foldl_cons]

/-- As long as the counter stays below `INT_MAX`, the `int` loop runs its body
for `i, i + 1, .., i + count - 1`. -/
theorem intLoop_eq_foldl {σ : Type} (body : Nat → σ → Option σ) (g : σ → Nat → σ) :
    ∀ (count i : Nat) (s : σ), i + count ≤ INT_MAX →
      (∀ j s', i ≤ j → j < i + count → body j s' = some (g s' j)) →
      intLoop body count i s = some ((List.range' i count).foldl g s) := by
  intro count
  induction count with
  | zero => intro i s _ _; rfl
  | succ k ih =>
    intro i s hfit h
    have h0 : body i s = some (g s i) := h i s (Nat.le_refl i) (by omega)
    have hk : intLoop body k (i + 1) (g s i)
        = some ((List.range' (i + 1) k).foldl g (g s i)) :=
      ih (i + 1) (g s i) (by omega) (fun j s' h1 h2 => h j s' (by omega) (by omega))
    have hi : i < INT_MAX := by omega
    simp only [intLoop, h0, hk, hi, if_true, List.range'_succ, List.foldl_cons]

/-- A loop that would have to count beyond `INT_MAX` has undefined
behaviour, whatever its body does. -/
theorem intLoop_overflow {σ : Type} (body : Nat → σ → Option σ) :
    ∀ (count i : Nat) (s : σ), i ≤ INT_MAX → INT_MAX < i + count →
      intLoop body count i s = none := by
  intro count
  induction count with
  | zero => intro i s h1 h2; omega
  | succ k ih =>
    intro i s h1 h2
    unfold intLoop
    cases body i s with
    | none => rfl
    | some s' =>
      simp only []
      by_cases hi : i < INT_MAX
      · rw [if_pos hi]
        exact ih (i + 1) s' (by omega) (by omega)
      · rw [if_neg hi]

/-- A loop whose first iteration has undefined behaviour has it too. -/
theorem intLoop_first_fails {σ : Type} (body : Nat → σ → Option σ) (count i : Nat) (s : σ)
    (hcount : 0 < count) (h : body i s = none) : intLoop body count i s = none := by
  cases count with
  | zero => omega
  | succ k => simp [intLoop, h]

theorem foldl_flatMap_eq {α β σ : Type} (f : α → List β) (g : σ → β → σ) :
    ∀ (l : List α) (s : σ),
      (l.flatMap f).foldl g s = l.foldl (fun acc a => (f a).foldl g acc) s := by
  intro l
  induction l with
  | nil => intro s; rfl
  | cons a l ih => intro s; simp only [List.flatMap_cons, List.foldl_append, List.foldl_cons, ih]

/-- Below the product of the three dimensions the flattened index of a
triple stays below the product. -/
theorem flat_lt (B T N b t n : Nat) (hb : b < B) (ht : t < T) (hn : n < N) :
    b * T * N + t * N + n < B * T * N := by
  have h1 : t * N + n < T * N := by
    calc t * N + n < t * N + N := by omega
      _ = (t + 1) * N := by ring
      _ ≤ T * N := Nat.mul_le_mul_right N ht
  have h2 : b * T * N + T * N ≤ B * T * N := by
    calc b * T * N + T * N = (b + 1) * (T * N) := by ring
      _ ≤ B * (T * N) := Nat.mul_le_mul_right (T * N) hb
      _ = B * T * N := by ring
  omega

/-- Below the product of the three dimensions no step of the index
expression wraps around. -/
theorem flatIndex_exact (ki : KernelInfo) (b t n : Nat)
    (hb : b < ki.total_blocks) (ht : t < ki.total_threads_per_blocks)
    (hn : n < ki.basic_blocks)
    (hsize : ki.total_blocks * ki.total_threads_per_blocks * ki.basic_blocks < UINT_RANGE) :
    flatIndex ki b t n
        = b * ki.total_threads_per_blocks * ki.basic_blocks + t * ki.basic_blocks + n := by
  have hlt := flat_lt _ _ _ b t n hb ht hn
  unfold flatIndex toUInt
  generalize ki.total_blocks = B at *
  generalize ki.total_threads_per_blocks = T at *
  generalize ki.basic_blocks = N at *
  have hN0 : 0 < N := by omega
  have hbT : b * T ≤ b * T * N := Nat.le_mul_of_pos_right _ hN0
  have e1 : b * T % UINT_RANGE = b * T := Nat.mod_eq_of_lt (by omega)
  have e2 : b * T * N % UINT_RANGE = b * T * N := Nat.mod_eq_of_lt (by omega)
  have e3 : t * N % UINT_RANGE = t * N := Nat.mod_eq_of_lt (by omega)
  have e4 : (b * T * N + t * N) % UINT_RANGE = b * T * N + t * N := Nat.mod_eq_of_lt (by omega)
  have e5 : (b * T * N + t * N + n) % UINT_RANGE = b * T * N + t * N + n :=
    Nat.mod_eq_of_lt (by omega)
  rw [e1, e2, e3, e4, e5]

/-- What one iteration of the innermost loop of `dumpCsv` reads and prints. -/
theorem dumpCsv_cell (inst : Instrumenter) (hv : inst.Valid)
    (hsize : inst.host_counters.length = inst.kernel_info.total_blocks *
      inst.kernel_info.total_threads_per_blocks * inst.kernel_info.basic_blocks)
    (b t n : Nat) (hb : b < inst.kernel_info.total_blocks)
    (ht : t < inst.kernel_info.total_threads_per_blocks)
    (hn : n < inst.kernel_info.basic_blocks) :
    ∃ cell, inst.host_counters[flatIndex inst.kernel_info b t n]? = some cell ∧
      toUInt cell = cell ∧
      cell = inst.host_counters.getD (b * inst.kernel_info.total_threads_per_blocks *
        inst.kernel_info.basic_blocks + t * inst.kernel_info.basic_blocks + n) 0 := by
  obtain ⟨hwt, hlen, hcells⟩ := hv
  have hlt := flat_lt _ _ _ b t n hb ht hn
  have hfit : inst.kernel_info.total_blocks * inst.kernel_info.total_threads_per_blocks *
      inst.kernel_info.basic_blocks < UINT_RANGE := by
    rw [← hsize, hlen]; exact hwt.2.2.2
  rw [flatIndex_exact inst.kernel_info b t n hb ht hn hfit]
  rw [← hsize] at hlt
  refine ⟨inst.host_counters[b * inst.kernel_info.total_threads_per_blocks *
        inst.kernel_info.basic_blocks + t * inst.kernel_info.basic_blocks + n], ?_, ?_, ?_⟩
  · exact List.getElem?_eq_getElem hlt
  · exact Nat.mod_eq_of_lt (hcells _ (List.getElem_mem hlt))
  · simp [List.getD, List.getElem?_eq_getElem hlt]

/-- Rows written to an open stream are appended to its content. -/
theorem foldl_put_open (rows : List CsvRow) :
    ∀ (out : OfStream), out.is_open = true →
      rows.foldl (fun out r => out.put r.text) out
        = { out with content := rows.foldl (fun text r => text ++ r.text) out.content } := by
  induction rows with
  | nil => intro out _; rfl
  | cons r rows ih =>
    intro out h
    rw [List.foldl_cons, List.foldl_cons, ih _ (by simp [OfStream.put, h])]
    simp [OfStream.put, h]

/-- Rows written to a stream in a failed state are lost. -/
theorem foldl_put_failed (rows : List CsvRow) :
    ∀ (out : OfStream), out.is_open = false →
      rows.foldl (fun out r => out.put r.text) out = out := by
  induction rows with
  | nil => intro out _; rfl
  | cons r rows ih =>
    intro out h
    have hput : out.put r.text = out := by simp [OfStream.put, h]
    rw [List.foldl_cons, hput, ih out h]

/-- The three loops of `dumpCsv` write the rows of `tripleRows`. -/
theorem dumpCsv_loops (inst : Instrumenter) (hv : inst.Valid)
    (hsize : inst.host_counters.length = inst.kernel_info.total_blocks *
      inst.kernel_info.total_threads_per_blocks * inst.kernel_info.basic_blocks)
    (hB : inst.kernel_info.total_blocks ≤ INT_MAX)
    (hT : inst.kernel_info.total_threads_per_blocks ≤ INT_MAX)
    (hN : inst.kernel_info.basic_blocks ≤ INT_MAX) (out : OfStream) :
    intLoop (fun block out =>
      intLoop (fun thread out =>
        intLoop (fun bblock out =>
          match inst.host_counters[flatIndex inst.kernel_info block thread bblock]? with
          | some cell => some (out.put (csvLine block thread bblock (toUInt cell)))
          | none => none)
          inst.kernel_info.basic_blocks 0 out)
        inst.kernel_info.total_threads_per_blocks 0 out)
      inst.kernel_info.total_blocks 0 out
      = some ((tripleRows inst.kernel_info.total_blocks
          inst.kernel_info.total_threads_per_blocks inst.kernel_info.basic_blocks
          inst.host_counters).foldl (fun out r => out.put r.text) out) := by
  rw [intLoop_eq_foldl _
    (fun out b => (List.range inst.kernel_info.total_threads_per_blocks).foldl
      (fun out t => (List.range inst.kernel_info.basic_blocks).foldl
        (fun out n => out.put (csvLine b t n
          (inst.host_counters.getD (b * inst.kernel_info.total_threads_per_blocks *
            inst.kernel_info.basic_blocks + t * inst.kernel_info.basic_blocks + n) 0)))
        out) out) _ _ _ (by omega)]
  · simp only [tripleRows, foldl_flatMap_eq, List.foldl_map, CsvRow.text,
      List.range_eq_range']
  · intro b out _ hb
    rw [intLoop_eq_foldl _
      (fun out t => (List.range inst.kernel_info.basic_blocks).foldl
        (fun out n => out.put (csvLine b t n
          (inst.host_counters.getD (b * inst.kernel_info.total_threads_per_blocks *
            inst.kernel_info.basic_blocks + t * inst.kernel_info.basic_blocks + n) 0)))
        out) _ _ _ (by omega)]
    · simp only [List.range_eq_range']
    · intro t out _ ht
      rw [intLoop_eq_foldl _
        (fun out n => out.put (csvLine b t n
          (inst.host_counters.getD (b * inst.kernel_info.total_threads_per_blocks *
            inst.kernel_info.basic_blocks + t * inst.kernel_info.basic_blocks + n) 0)))
        _ _ _ (by omega)]
      · simp only [List.range_eq_range']
      · intro n out _ hn
        obtain ⟨cell, h1, h2, h3⟩ :=
          dumpCsv_cell inst hv hsize b t n (by omega) (by omega) (by omega)
        simp only [h1, h2]
        rw [h3]

/-- The header written to a stream that could open its file. -/
theorem put_header_open (can_open : String → Bool) (filename : String)
    (h : can_open filename = true) :
    (OfStream.new can_open filename).put csvHeader
      = { filename := filename, is_open := true, content := csvHeader } := by
  simp only [OfStream.new, OfStream.put, h, if_true]
  congr 1

/-- The header written to a stream that could not open its file. -/
theorem put_header_failed (can_open : String → Bool) (filename : String)
    (h : can_open filename = false) :
    (OfStream.new can_open filename).put csvHeader
      = { filename := filename, is_open := false, content := "" } := by
  simp [OfStream.new, OfStream.put, h]

/-- What `dumpCsv` leaves on disk when no dimension exceeds `INT_MAX`. -/
theorem dumpCsv_eq_tripleRows (inst : Instrumenter) (can_open : String → Bool)
    (filename_in : String) (hv : inst.Valid)
    (hsize : inst.host_counters.length = inst.kernel_info.total_blocks *
      inst.kernel_info.total_threads_per_blocks * inst.kernel_info.basic_blocks)
    (hB : inst.kernel_info.total_blocks ≤ INT_MAX)
    (hT : inst.kernel_info.total_threads_per_blocks ≤ INT_MAX)
    (hN : inst.kernel_info.basic_blocks ≤ INT_MAX) :
    inst.dumpCsv can_open filename_in =
      if can_open (if filename_in.isEmpty then inst.autoFilenamePrefix ++ ".csv"
          else filename_in) = true then
        some (some
          { filename :=
              if filename_in.isEmpty then inst.autoFilenamePrefix ++ ".csv" else filename_in,
            content := csvText (tripleRows inst.kernel_info.total_blocks
              inst.kernel_info.total_threads_per_blocks inst.kernel_info.basic_blocks
              inst.host_counters) })
      else some none := by
  unfold Instrumenter.dumpCsv
  simp only [dumpCsv_loops inst hv hsize hB hT hN]
  by_cases h : can_open (if filename_in.isEmpty then inst.autoFilenamePrefix ++ ".csv"
      else filename_in) = true
  · rw [if_pos h, put_header_open _ _ h, foldl_put_open _ _ rfl]
    simp [OfStream.close, csvText]
  · rw [if_neg h]
    have h' : can_open (if filename_in.isEmpty then inst.autoFilenamePrefix ++ ".csv"
      else filename_in) = false := by simpa using h
    rw [put_header_failed _ _ h', foldl_put_failed _ _ rfl]
    simp [OfStream.close]

/-- Beyond `INT_MAX` the loops of `dumpCsv` overflow their `int` counter. -/
theorem dumpCsv_overflow (inst : Instrumenter) (can_open : String → Bool)
    (filename_in : String)
    (h : INT_MAX < inst.kernel_info.total_blocks ∨
      (0 < inst.kernel_info.total_blocks ∧
        INT_MAX < inst.kernel_info.total_threads_per_blocks) ∨
      (0 < inst.kernel_info.total_blocks ∧ 0 < inst.kernel_info.total_threads_per_blocks ∧
        INT_MAX < inst.kernel_info.basic_blocks)) :
    inst.dumpCsv can_open filename_in = none := by
  have over : ∀ {σ : Type} (bound : Nat) (body : Nat → σ → Option σ) (s : σ),
      INT_MAX < bound → intLoop body bound 0 s = none := fun bound body s hb =>
    intLoop_overflow body bound 0 s (Nat.zero_le _) (by omega)
  have fails : ∀ {σ : Type} (bound : Nat) (s : σ), 0 < bound →
      intLoop (fun _ _ => (none : Option σ)) bound 0 s = none := fun bound s hb =>
    intLoop_first_fails _ bound 0 s hb rfl
  unfold Instrumenter.dumpCsv
  rcases h with h | ⟨hB, h⟩ | ⟨hB, hT, h⟩
  · simp only [over _ _ _ h]
  · simp only [over _ _ _ h, fails _ _ hB]
  · simp only [over _ _ _ h, fails _ _ hT, fails _ _ hB]

theorem mem_tripleRows (B T N : Nat) (cells : List Nat) (r : CsvRow) :
    r ∈ tripleRows B T N cells ↔
      r.block < B ∧ r.thread < T ∧ r.bblock < N ∧
        r.count = cells.getD (r.block * T * N + r.thread * N + r.bblock) 0 := by
  unfold tripleRows
  simp only [List.mem_flatMap, List.mem_map, List.mem_range]
  constructor
  · rintro ⟨b, hb, t, ht, n, hn, rfl⟩
    exact ⟨hb, ht, hn, rfl⟩
  · rintro ⟨hb, ht, hn, hc⟩
    refine ⟨r.block, hb, r.thread, ht, r.bblock, hn, ?_⟩
    cases r
    simp only at hc
    simp only [hc]

theorem length_flatMap_const {α β : Type} (f : α → List β) (k : Nat) :
    ∀ (l : List α), (∀ a ∈ l, (f a).length = k) → (l.flatMap f).length = l.length * k := by
  intro l
  induction l with
  | nil => intro _; simp
  | cons a l ih =>
    intro h
    rw [List.flatMap_cons, List.length_append, h a (List.mem_cons_self a l),
      ih (fun x hx => h x (List.mem_cons_of_mem a hx)), List.length_cons]
    ring

theorem length_tripleRows (B T N : Nat) (cells : List Nat) :
    (tripleRows B T N cells).length = B * T * N := by
  unfold tripleRows
  rw [length_flatMap_const _ (T * N), List.length_range, Nat.mul_assoc]
  intro b _
  rw [length_flatMap_const _ N, List.length_range]
  intro t _
  rw [List.length_map, List.length_range]

theorem pairwise_tripleRows (B T N : Nat) (cells : List Nat) :
    (tripleRows B T N cells).Pairwise CsvRow.keyLt := by
  unfold tripleRows
  rw [List.pairwise_flatMap]
  constructor
  · intro b _
    rw [List.pairwise_flatMap]
    constructor
    · intro t _
      rw [List.pairwise_map]
      exact (List.pairwise_lt_range N).imp (fun h => Or.inr ⟨rfl, Or.inr ⟨rfl, h⟩⟩)
    · refine (List.pairwise_lt_range T).imp ?_
      intro t t' h x hx y hy
      simp only [List.mem_map] at hx hy
      obtain ⟨_, _, rfl⟩ := hx
      obtain ⟨_, _, rfl⟩ := hy
      exact Or.inr ⟨rfl, Or.inl h⟩
  · refine (List.pairwise_lt_range B).imp ?_
    intro b b' h x hx y hy
    simp only [List.mem_flatMap, List.mem_map] at hx hy
    obtain ⟨_, _, _, _, rfl⟩ := hx
    obtain ⟨_, _, _, _, rfl⟩ := hy
    exact Or.inl h

/-- The triple is recovered from its flattened index by division. -/
theorem flat_decode (T N b t n : Nat) (ht : t < T) (hn : n < N) :
    (b * T * N + t * N + n) % N = n ∧ (b * T * N + t * N + n) / N % T = t ∧
      (b * T * N + t * N + n) / N / T = b := by
  have hk : b * T * N + t * N + n = n + N * (t + T * b) := by ring
  have hN : 0 < N := by omega
  have hT : 0 < T := by omega
  have hdiv : (n + N * (t + T * b)) / N = t + T * b := by
    rw [Nat.add_mul_div_left _ _ hN, Nat.div_eq_of_lt hn, Nat.zero_add]
  rw [hk, hdiv]
  refine ⟨?_, ?_, ?_⟩
  · rw [Nat.add_mul_mod_self_left, Nat.mod_eq_of_lt hn]
  · rw [Nat.add_mul_mod_self_left, Nat.mod_eq_of_lt ht]
  · rw [Nat.add_mul_div_left _ _ hT, Nat.div_eq_of_lt ht, Nat.zero_add]

/-- Every index below the product is the flattened index of a triple. -/
theorem flat_encode (B T N k : Nat) (hk : k < B * T * N) :
    k / N / T < B ∧ k / N % T < T ∧ k % N < N ∧
      k / N / T * T * N + k / N % T * N + k % N = k := by
  have hN : 0 < N := by
    rcases Nat.eq_zero_or_pos N with h | h
    · rw [h, Nat.mul_zero] at hk; omega
    · exact h
  have hT : 0 < T := by
    rcases Nat.eq_zero_or_pos T with h | h
    · rw [h, Nat.mul_zero, Nat.zero_mul] at hk; omega
    · exact h
  have h1 : k / N < B * T := (Nat.div_lt_iff_lt_mul hN).2 hk
  have h2 : k / N / T < B := (Nat.div_lt_iff_lt_mul hT).2 h1
  refine ⟨h2, Nat.mod_lt _ hT, Nat.mod_lt _ hN, ?_⟩
  have e1 : k / N / T * T + k / N % T = k / N := by
    rw [Nat.mul_comm]; exact Nat.div_add_mod (k / N) T
  have e2 : k / N * N + k % N = k := by
    rw [Nat.mul_comm]; exact Nat.div_add_mod k N
  calc k / N / T * T * N + k / N % T * N + k % N
      = (k / N / T * T + k / N % T) * N + k % N := by ring
    _ = k := by rw [e1, e2]

theorem key_ne_of_keyLt (a b : CsvRow) (h : a.keyLt b) : a.key ≠ b.key := by
  intro heq
  simp only [CsvRow.key, Prod.mk.injEq] at heq
  unfold CsvRow.keyLt at h
  omega

/-- In a list of rows with strictly increasing keys, a key that occurs occurs
exactly once. -/
theorem count_key_eq_one :
    ∀ (rows : List CsvRow), rows.Pairwise CsvRow.keyLt → ∀ r ∈ rows,
      (rows.filter fun x => decide (x.key = r.key)).length = 1 := by
  intro rows
  induction rows with
  | nil => intro _ r hr; cases hr
  | cons a l ih =>
    intro hsorted r hr
    rw [List.pairwise_cons] at hsorted
    rcases List.mem_cons.1 hr with rfl | hr
    · have hnone : l.filter (fun x => decide (x.key = r.key)) = [] := by
        rw [List.filter_eq_nil_iff]
        intro x hx
        simp only [decide_eq_true_eq]
        exact fun h => key_ne_of_keyLt r x (hsorted.1 x hx) h.symm
      simp [List.filter_cons, hnone]
    · have hne : a.key ≠ r.key := key_ne_of_keyLt a r (hsorted.1 r hr)
      simp only [List.filter_cons, hne, decide_False, Bool.false_eq_true, if_false]
      exact ih hsorted.2 r hr

/-- A zero instrumenter whose dimensions and cell count fit 32 bits is valid,
and its buffer has `B * T * N` cells. -/
theorem zeroInstrumenter_valid (B T N : Nat) (hB : B < UINT_RANGE) (hT : T < UINT_RANGE)
    (hN : N < UINT_RANGE) (hfit : B * T * N < UINT_RANGE) :
    (zeroInstrumenter B T N).Valid ∧
      (zeroInstrumenter B T N).host_counters.length = B * T * N := by
  refine ⟨⟨⟨hB, hT, hN, hfit⟩, List.length_replicate _ _, ?_⟩, List.length_replicate _ _⟩
  intro c hc
  rw [List.eq_of_mem_replicate hc]
  decide

/-- C1, as stated, fails. With `2 ^ 31 + 1` blocks of one thread and one basic
block and a buffer of `2 ^ 31 + 1` cells (a valid instrumenter, the buffer has
length `B * T * N`), the `int` counter of the outer loop of `dumpCsv` is
incremented beyond `INT_MAX`: the behaviour is undefined, and the row of block
`2 ^ 31` is not written by defined behaviour. The same holds for one block of
`2 ^ 31 + 1` threads and for one block of one thread with `2 ^ 31 + 1` basic
blocks. And in the scenario `B = T = N = 2`, when the file cannot be opened,
`dumpCsv` returns without writing anything. -/
theorem dumpCsv_undefined_or_unwritten :
    ((zeroInstrumenter 2147483649 1 1).Valid ∧
      (zeroInstrumenter 2147483649 1 1).host_counters.length = 2147483649 * 1 * 1 ∧
      (zeroInstrumenter 2147483649 1 1).dumpCsv (fun _ => true) "trace.csv" = none) ∧
    ((zeroInstrumenter 1 2147483649 1).Valid ∧
      (zeroInstrumenter 1 2147483649 1).host_counters.length = 1 * 2147483649 * 1 ∧
      (zeroInstrumenter 1 2147483649 1).dumpCsv (fun _ => true) "trace.csv" = none) ∧
    ((zeroInstrumenter 1 1 2147483649).Valid ∧
      (zeroInstrumenter 1 1 2147483649).host_counters.length = 1 * 1 * 2147483649 ∧
      (zeroInstrumenter 1 1 2147483649).dumpCsv (fun _ => true) "trace.csv" = none) ∧
    (scenarioInstrumenter.Valid ∧ scenarioInstrumenter.host_counters.length = 2 * 2 * 2 ∧
      scenarioInstrumenter.dumpCsv (fun _ => false) "trace.csv" = some none) := by
  refine ⟨⟨(zeroInstrumenter_valid _ _ _ (by decide) (by decide) (by decide) (by decide)).1,
      (zeroInstrumenter_valid _ _ _ (by decide) (by decide) (by decide) (by decide)).2, ?_⟩,
    ⟨(zeroInstrumenter_valid _ _ _ (by decide) (by decide) (by decide) (by decide)).1,
      (zeroInstrumenter_valid _ _ _ (by decide) (by decide) (by decide) (by decide)).2, ?_⟩,
    ⟨(zeroInstrumenter_valid _ _ _ (by decide) (by decide) (by decide) (by decide)).1,
      (zeroInstrumenter_valid _ _ _ (by decide) (by decide) (by decide) (by decide)).2, ?_⟩,
    ⟨⟨by decide, by decide, by decide, by decide⟩, by decide, by decide⟩, by decide, by decide⟩
  · exact dumpCsv_overflow _ _ _ (Or.inl (by decide))
  · exact dumpCsv_overflow _ _ _ (Or.inr (Or.inl ⟨by decide, by decide⟩))
  · exact dumpCsv_overflow _ _ _ (Or.inr (Or.inr ⟨by decide, by decide, by decide⟩))


/-- C1, amended. For every kernel shape `(B, T, N)` whose dimensions are at
most `INT_MAX` and every host counter buffer of length `B * T * N` held by an
instrumenter, if the output file can be opened, `Instrumenter::dumpCsv` writes
to it the header line `block,thread,bblock,count` followed by a list of rows
`b,t,n,c`: there are `B * T * N` of them, their keys `(b, t, n)` are strictly
increasing in lexicographic order (so no triple has two rows), every triple
with `b < B`, `t < T`, `n < N` is the key of exactly one row, and the count
of a row is the buffer cell at `b * T * N + t * N + n`. In the scenario
`B = T = N = 2` with buffer `[1,0,1,1,0,0,1,1]` the file is the header and 8
data rows, and the row of `(block 1, thread 0, bblock 1)` reads `1,0,1,0`.
Besides: if the file cannot be opened, nothing is written; and a loop that
has to count beyond `INT_MAX` makes the behaviour undefined. -/
theorem dumpCsv_one_row_per_triple :
    (∀ (inst : Instrumenter) (can_open : String → Bool) (filename_in : String), inst.Valid →
      inst.host_counters.length = inst.kernel_info.total_blocks *
        inst.kernel_info.total_threads_per_blocks * inst.kernel_info.basic_blocks →
      inst.kernel_info.total_blocks ≤ INT_MAX →
      inst.kernel_info.total_threads_per_blocks ≤ INT_MAX →
      inst.kernel_info.basic_blocks ≤ INT_MAX →
      can_open (if filename_in.isEmpty then inst.autoFilenamePrefix ++ ".csv"
        else filename_in) = true →
      ∃ rows : List CsvRow,
        inst.dumpCsv can_open filename_in = some (some
          { filename :=
              if filename_in.isEmpty then inst.autoFilenamePrefix ++ ".csv" else filename_in,
            content := csvText rows }) ∧
        rows.length = inst.kernel_info.total_blocks *
          inst.kernel_info.total_threads_per_blocks * inst.kernel_info.basic_blocks ∧
        rows.Pairwise CsvRow.keyLt ∧
        (∀ b t n, b < inst.kernel_info.total_blocks →
          t < inst.kernel_info.total_threads_per_blocks → n < inst.kernel_info.basic_blocks →
          (rows.filter fun r => decide (r.key = (b, t, n))).length = 1) ∧
        (∀ r ∈ rows, r.block < inst.kernel_info.total_blocks ∧
          r.thread < inst.kernel_info.total_threads_per_blocks ∧
          r.bblock < inst.kernel_info.basic_blocks ∧
          inst.host_counters[r.block * inst.kernel_info.total_threads_per_blocks *
            inst.kernel_info.basic_blocks + r.thread * inst.kernel_info.basic_blocks +
            r.bblock]? = some r.count)) ∧
    (scenarioInstrumenter.dumpCsv (fun _ => true) "trace.csv" = some (some
        { filename := "trace.csv",
          content := csvText
            [⟨0, 0, 0, 1⟩, ⟨0, 0, 1, 0⟩, ⟨0, 1, 0, 1⟩, ⟨0, 1, 1, 1⟩,
             ⟨1, 0, 0, 0⟩, ⟨1, 0, 1, 0⟩, ⟨1, 1, 0, 1⟩, ⟨1, 1, 1, 1⟩] }) ∧
      scenarioInstrumenter.dumpCsv (fun _ => true) "trace.csv" = some (some
        { filename := "trace.csv",
          content := "block,thread,bblock,count\n0,0,0,1\n0,0,1,0\n0,1,0,1\n0,1,1,1\n1,0,0,0\n1,0,1,0\n1,1,0,1\n1,1,1,1\n" })) ∧
    (∀ (inst : Instrumenter) (can_open : String → Bool) (filename_in : String), inst.Valid →
      inst.host_counters.length = inst.kernel_info.total_blocks *
        inst.kernel_info.total_threads_per_blocks * inst.kernel_info.basic_blocks →
      inst.kernel_info.total_blocks ≤ INT_MAX →
      inst.kernel_info.total_threads_per_blocks ≤ INT_MAX →
      inst.kernel_info.basic_blocks ≤ INT_MAX →
      can_open (if filename_in.isEmpty then inst.autoFilenamePrefix ++ ".csv"
        else filename_in) = false →
      inst.dumpCsv can_open filename_in = some none) ∧
    (∀ (inst : Instrumenter) (can_open : String → Bool) (filename_in : String),
      (INT_MAX < inst.kernel_info.total_blocks ∨
        (0 < inst.kernel_info.total_blocks ∧
          INT_MAX < inst.kernel_info.total_threads_per_blocks) ∨
        (0 < inst.kernel_info.total_blocks ∧ 0 < inst.kernel_info.total_threads_per_blocks ∧
          INT_MAX < inst.kernel_info.basic_blocks)) →
      inst.dumpCsv can_open filename_in = none) := by
  refine ⟨?_, ⟨by decide, by decide⟩, ?_, dumpCsv_overflow⟩
  · intro inst can_open filename_in hv hsize hB hT hN hopen
    refine ⟨tripleRows inst.kernel_info.total_blocks inst.kernel_info.total_threads_per_blocks
      inst.kernel_info.basic_blocks inst.host_counters, ?_, length_tripleRows _ _ _ _,
      pairwise_tripleRows _ _ _ _, ?_, ?_⟩
    · rw [dumpCsv_eq_tripleRows inst can_open filename_in hv hsize hB hT hN, if_pos hopen]
    · intro b t n hb ht hn
      exact count_key_eq_one _ (pairwise_tripleRows _ _ _ _)
        ⟨b, t, n, inst.host_counters.getD (b * inst.kernel_info.total_threads_per_blocks *
          inst.kernel_info.basic_blocks + t * inst.kernel_info.basic_blocks + n) 0⟩
        ((mem_tripleRows _ _ _ _ _).2 ⟨hb, ht, hn, rfl⟩)
    · intro r hr
      obtain ⟨hb, ht, hn, hc⟩ := (mem_tripleRows _ _ _ _ _).1 hr
      refine ⟨hb, ht, hn, ?_⟩
      have hlt := flat_lt _ _ _ r.block r.thread r.bblock hb ht hn
      rw [← hsize] at hlt
      rw [hc, List.getElem?_eq_getElem hlt]
      simp [List.getD, List.getElem?_eq_getElem hlt]
  · intro inst can_open filename_in hv hsize hB hT hN hopen
    rw [dumpCsv_eq_tripleRows inst can_open filename_in hv hsize hB hT hN, if_neg (by simp [hopen])]

/-- The scenario of C1 as an instance of the general statement: a valid
instrumenter with `B = T = N = 2` and 8 cells, on a file system where every
file can be opened, writing to the default path. -/
theorem dumpCsv_one_row_per_triple_witness :
    ∃ rows : List CsvRow,
      scenarioInstrumenter.dumpCsv (fun _ => true) "" = some (some
        { filename := "kernel_0.csv", content := csvText rows }) ∧
      rows.length = 2 * 2 * 2 ∧
      rows.Pairwise CsvRow.keyLt ∧
      (∀ b t n, b < 2 → t < 2 → n < 2 →
        (rows.filter fun r => decide (r.key = (b, t, n))).length = 1) ∧
      (∀ r ∈ rows, r.block < 2 ∧ r.thread < 2 ∧ r.bblock < 2 ∧
        [1, 0, 1, 1, 0, 0, 1, 1][r.block * 2 * 2 + r.thread * 2 + r.bblock]? = some r.count) :=
  dumpCsv_one_row_per_triple.1 scenarioInstrumenter (fun _ => true) ""
    ⟨⟨by decide, by decide, by decide, by decide⟩, by decide, by decide⟩ (by decide)
    (by decide) (by decide) (by decide) rfl


/-- C2. For every kernel shape whose `instr_size` equals
`total_blocks * total_threads_per_blocks * basic_blocks` (the product fits the
32-bit field), the flattened index of the counter layout is a one-to-one map
from the triples `(block < total_blocks, thread < total_threads_per_blocks,
bblock < basic_blocks)` onto the cell indices below `instr_size`: it equals
`block * T * N + thread * N + bblock` without wrap-around, two triples with
the same index are equal, every index is below `instr_size` (so the read of a
host buffer of `instr_size` cells is in bounds), and every cell index below
`instr_size` is the index of some triple. -/
theorem flatIndex_bijective (ki : KernelInfo) (hwt : ki.WellTyped)
    (hsize : ki.instr_size =
      ki.total_blocks * ki.total_threads_per_blocks * ki.basic_blocks) :
    (∀ b t n, b < ki.total_blocks → t < ki.total_threads_per_blocks → n < ki.basic_blocks →
      flatIndex ki b t n
        = b * ki.total_threads_per_blocks * ki.basic_blocks + t * ki.basic_blocks + n) ∧
    (∀ b t n b' t' n', b < ki.total_blocks → t < ki.total_threads_per_blocks →
      n < ki.basic_blocks → b' < ki.total_blocks → t' < ki.total_threads_per_blocks →
      n' < ki.basic_blocks → flatIndex ki b t n = flatIndex ki b' t' n' →
      b = b' ∧ t = t' ∧ n = n') ∧
    (∀ b t n, b < ki.total_blocks → t < ki.total_threads_per_blocks → n < ki.basic_blocks →
      flatIndex ki b t n < ki.instr_size) ∧
    (∀ (cells : List Nat), cells.length = ki.instr_size →
      ∀ b t n, b < ki.total_blocks → t < ki.total_threads_per_blocks →
        n < ki.basic_blocks → ∃ c, cells[flatIndex ki b t n]? = some c) ∧
    (∀ k, k < ki.instr_size →
      ∃ b t n, b < ki.total_blocks ∧ t < ki.total_threads_per_blocks ∧
        n < ki.basic_blocks ∧ flatIndex ki b t n = k) := by
  have hfit : ki.total_blocks * ki.total_threads_per_blocks * ki.basic_blocks < UINT_RANGE := by
    rw [← hsize]; exact hwt.2.2.2
  have hlt : ∀ b t n, b < ki.total_blocks → t < ki.total_threads_per_blocks →
      n < ki.basic_blocks → flatIndex ki b t n < ki.instr_size := by
    intro b t n hb ht hn
    rw [flatIndex_exact ki b t n hb ht hn hfit, hsize]
    exact flat_lt _ _ _ b t n hb ht hn
  refine ⟨fun b t n hb ht hn => flatIndex_exact ki b t n hb ht hn hfit, ?_, hlt, ?_, ?_⟩
  · intro b t n b' t' n' hb ht hn hb' ht' hn' h
    rw [flatIndex_exact ki b t n hb ht hn hfit, flatIndex_exact ki b' t' n' hb' ht' hn' hfit] at h
    obtain ⟨d1, d2, d3⟩ := flat_decode ki.total_threads_per_blocks ki.basic_blocks b t n ht hn
    obtain ⟨d1', d2', d3'⟩ :=
      flat_decode ki.total_threads_per_blocks ki.basic_blocks b' t' n' ht' hn'
    rw [h] at d1 d2 d3
    exact ⟨d3.symm.trans d3', d2.symm.trans d2', d1.symm.trans d1'⟩
  · intro cells hlen b t n hb ht hn
    have h := hlt b t n hb ht hn
    rw [← hlen] at h
    exact ⟨cells[flatIndex ki b t n], List.getElem?_eq_getElem h⟩
  · intro k hk
    rw [hsize] at hk
    obtain ⟨h1, h2, h3, h4⟩ := flat_encode _ _ _ k hk
    exact ⟨_, _, _, h1, h2, h3, (flatIndex_exact ki _ _ _ h1 h2 h3 hfit).trans h4⟩

/-- The shape of the scenario (`2 × 2 × 2`, `instr_size = 8`) satisfies the
hypotheses of C2. -/
theorem flatIndex_bijective_witness :
    (∀ b t n, b < 2 → t < 2 → n < 2 →
      flatIndex scenarioInstrumenter.kernel_info b t n = b * 2 * 2 + t * 2 + n) ∧
    (∀ b t n b' t' n', b < 2 → t < 2 → n < 2 → b' < 2 → t' < 2 → n' < 2 →
      flatIndex scenarioInstrumenter.kernel_info b t n
        = flatIndex scenarioInstrumenter.kernel_info b' t' n' →
      b = b' ∧ t = t' ∧ n = n') ∧
    (∀ b t n, b < 2 → t < 2 → n < 2 →
      flatIndex scenarioInstrumenter.kernel_info b t n < 8) ∧
    (∀ (cells : List Nat), cells.length = 8 →
      ∀ b t n, b < 2 → t < 2 → n < 2 →
        ∃ c, cells[flatIndex scenarioInstrumenter.kernel_info b t n]? = some c) ∧
    (∀ k, k < 8 →
      ∃ b t n, b < 2 ∧ t < 2 ∧ n < 2 ∧
        flatIndex scenarioInstrumenter.kernel_info b t n = k) :=
  flatIndex_bijective scenarioInstrumenter.kernel_info
    ⟨by decide, by decide, by decide, by decide⟩ (by decide)

/-! ## The host phase of the reduction -/

theorem toUInt_add_toUInt_left (a b : Nat) : toUInt (toUInt a + b) = toUInt (a + b) := by
  unfold toUInt; exact Nat.mod_add_mod a _ b

theorem toUInt_add_toUInt_right (a b : Nat) : toUInt (a + toUInt b) = toUInt (a + b) := by
  unfold toUInt; exact Nat.add_mod_mod a b _

theorem toUInt_mul_toUInt_right (a b : Nat) : toUInt (a * toUInt b) = toUInt (a * b) := by
  unfold toUInt; exact Nat.mul_mod_mod a b _

theorem toUInt_toUInt (a : Nat) : toUInt (toUInt a) = toUInt a := by
  unfold toUInt; exact Nat.mod_mod a _

theorem toUInt_of_lt {a : Nat} (h : a < UINT_RANGE) : toUInt a = a := Nat.mod_eq_of_lt h

/-- Accumulating in `unsigned int` gives the sum modulo `2 ^ 32`. -/
theorem foldl_toUInt_add {α : Type} (g : α → Nat) :
    ∀ (l : List α) (a : Nat),
      l.foldl (fun acc x => toUInt (acc + g x)) (toUInt a) = toUInt (a + (l.map g).sum) := by
  intro l
  induction l with
  | nil => intro a; simp
  | cons x l ih =>
    intro a
    rw [List.foldl_cons, toUInt_add_toUInt_left, ih (a + g x), List.map_cons, List.sum_cons,
      Nat.add_assoc]

/-- The slot indices `i * N + bb`, blocks outermost, enumerate `0, .., R * N - 1`
in order. -/
theorem slotIndices_eq_range (N : Nat) :
    ∀ R : Nat, ((List.range R).flatMap fun i => (List.range N).map fun bb => i * N + bb)
      = List.range (R * N) := by
  intro R
  induction R with
  | zero => simp
  | succ R ih =>
    rw [List.range_succ, List.flatMap_append, ih, Nat.succ_mul, List.range_add]
    simp

theorem map_getD_range {α : Type} (l : List α) (d : α) :
    (List.range l.length).map (fun i => l.getD i d) = l := by
  apply List.ext_getElem
  · simp
  · intro i h1 h2
    simp [List.getD, List.getElem?_eq_getElem h2]

/-- Closed form of the host loops when the output vector has
`num_blocks * basic_blocks` slots and the product fits `unsigned int`. -/
theorem finalReduction_eq_sum (R N : Nat) (output : List BlockUsage)
    (hlen : output.length = R * N) (hfit : R * N < UINT_RANGE) :
    finalReduction R N output = some (toUInt
      (((List.range R).flatMap fun i => (List.range N).map fun bb =>
        (output.getD (i * N + bb) ⟨0, 0⟩).flops).sum)) := by
  unfold finalReduction
  rw [forLoop_eq_foldl _ (fun flops i => (List.range N).foldl
    (fun flops bb => toUInt (flops + (output.getD (i * N + bb) ⟨0, 0⟩).flops)) flops)]
  · have hfold : ∀ (l : List Nat) (a : Nat),
        l.foldl (fun flops i => (List.range N).foldl
          (fun flops bb => toUInt (flops + (output.getD (i * N + bb) ⟨0, 0⟩).flops)) flops)
          (toUInt a)
        = toUInt (a + (l.flatMap fun i => (List.range N).map fun bb =>
            (output.getD (i * N + bb) ⟨0, 0⟩).flops).sum) := by
      intro l
      induction l with
      | nil => intro a; simp
      | cons i l ih =>
        intro a
        rw [List.foldl_cons,
          foldl_toUInt_add (fun bb => (output.getD (i * N + bb) ⟨0, 0⟩).flops), ih,
          List.flatMap_cons, List.sum_append, Nat.add_assoc]
    rw [← List.range_eq_range']
    have h := hfold (List.range R) 0
    rw [Nat.zero_add] at h
    exact congrArg some h
  · intro i flops _ hi
    rw [forLoop_eq_foldl _
      (fun flops bb => toUInt (flops + (output.getD (i * N + bb) ⟨0, 0⟩).flops))]
    · rw [List.range_eq_range']
    · intro bb flops _ hbb
      have hlt : i * N + bb < R * N := by
        have := flat_lt 1 R N 0 i bb (by omega) (by omega) (by omega)
        simpa using this
      have e1 : toUInt (i * N) = i * N := toUInt_of_lt (by omega)
      have e2 : toUInt (i * N + bb) = i * N + bb := toUInt_of_lt (by omega)
      have hget : output[i * N + bb]? = some (output.getD (i * N + bb) ⟨0, 0⟩) := by
        have h : i * N + bb < output.length := by omega
        simp [List.getD, List.getElem?_eq_getElem h]
      simp only [e1, e2, hget]

/-- The nested sum over the slot indices is the sum over the whole vector. -/
theorem slot_sum_eq_sum (R N : Nat) (output : List BlockUsage) (hlen : output.length = R * N) :
    ((List.range R).flatMap fun i => (List.range N).map fun bb =>
        (output.getD (i * N + bb) ⟨0, 0⟩).flops).sum
      = (output.map BlockUsage.flops).sum := by
  have h : ((List.range R).flatMap fun i => (List.range N).map fun bb =>
        (output.getD (i * N + bb) ⟨0, 0⟩).flops)
      = ((List.range R).flatMap fun i => (List.range N).map fun bb => i * N + bb).map
          (fun k => (output.getD k ⟨0, 0⟩).flops) := by
    rw [List.map_flatMap]
    simp only [List.map_map]
    rfl
  rw [h, slotIndices_eq_range, ← hlen]
  conv_rhs => rw [← map_getD_range output ⟨0, 0⟩]
  rw [List.map_map]
  rfl

set_option maxRecDepth 100000 in
theorem finalReduction_scenario : finalReduction 128 2 scenarioOutput = some 25 := by
  decide

/-! ## `reduceFlops` as a whole -/

theorem checked_of_success (dev : DeviceRuntime) (call : DeviceCall) (trace : List DeviceCall)
    (next : List DeviceCall → ReduceRun) (h : ∀ n, dev.status n = hipSuccess) :
    checked dev call trace next = next (trace ++ [call]) := by
  simp [checked, h]

theorem hipError_message_ne (s : String) :
    "Encountered hip error " ++ s ≠ emptyDatabaseMessage := by
  intro h
  have := congrArg (fun x => x.data.head?) h
  simp [emptyDatabaseMessage] at this

theorem checked_result_ne (dev : DeviceRuntime) (call : DeviceCall) (trace : List DeviceCall)
    (next : List DeviceCall → ReduceRun)
    (h : ∀ tr, (next tr).result ≠ .threw emptyDatabaseMessage) :
    (checked dev call trace next).result ≠ .threw emptyDatabaseMessage := by
  unfold checked
  by_cases hs : dev.status trace.length = hipSuccess
  · simp only [hs, if_true]
    exact h _
  · simp only [hs, if_false]
    intro hc
    simp only [Outcome.threw.injEq] at hc
    exact hipError_message_ne _ hc

theorem head?_append_of_head? {α : Type} (l : List α) (a c : α) (h : l.head? = some c) :
    (l ++ [a]).head? = some c := by
  cases l with
  | nil => simp at h
  | cons x l => simpa using h

theorem checked_head (dev : DeviceRuntime) (call c : DeviceCall) (trace : List DeviceCall)
    (next : List DeviceCall → ReduceRun) (h0 : (trace ++ [call]).head? = some c)
    (h : ∀ tr, tr.head? = some c → (next tr).trace.head? = some c) :
    (checked dev call trace next).trace.head? = some c := by
  unfold checked
  by_cases hs : dev.status trace.length = hipSuccess
  · simp only [hs, if_true]
    exact h _ h0
  · simp only [hs, if_false]
    exact h0

theorem blocks_isEmpty_eq_false (inst : Instrumenter) (hdb : inst.blocks ≠ []) :
    inst.blocks.isEmpty = false := by
  cases h : inst.blocks with
  | nil => exact absurd h hdb
  | cons _ _ => rfl

set_option maxRecDepth 100000 in
theorem scenarioOutput_shape :
    scenarioOutput.length = 128 * 2 ∧
      scenarioOutput.take 4 = [⟨4, 4 * 3⟩, ⟨2, 2 * 5⟩, ⟨1, 1 * 3⟩, ⟨0, 0 * 5⟩] ∧
      (∀ u ∈ scenarioOutput.drop 4, u = ⟨0, 0⟩) := by
  decide

/-- With a device on which every runtime call succeeds and a non-empty
database, `reduceFlops` returns the result of its final reduction over the
slots copied back from the device. -/
theorem reduceFlops_of_success (inst : Instrumenter) (dev : DeviceRuntime)
    (device_ptr : List Nat) (stream : Option Nat) (hdb : inst.blocks ≠ [])
    (hok : ∀ n, dev.status n = hipSuccess)
    (hfit : 128 * inst.kernel_info.basic_blocks < UINT_RANGE) :
    (inst.reduceFlops dev device_ptr stream).result
      = .returned (toUInt
          (((List.range (128 * inst.kernel_info.basic_blocks)).map
            (dev.kernelOutput device_ptr
              { threads_per_block := inst.kernel_info.total_threads_per_blocks,
                total_blocks := inst.kernel_info.total_blocks,
                basic_blocks := inst.kernel_info.basic_blocks }
              (dev.normalized inst.blocks))).map BlockUsage.flops).sum) := by
  have hne := blocks_isEmpty_eq_false inst hdb
  have hlen : ((List.range (128 * inst.kernel_info.basic_blocks)).map
      (dev.kernelOutput device_ptr
        { threads_per_block := inst.kernel_info.total_threads_per_blocks,
          total_blocks := inst.kernel_info.total_blocks,
          basic_blocks := inst.kernel_info.basic_blocks }
        (dev.normalized inst.blocks))).length = 128 * inst.kernel_info.basic_blocks := by
    simp
  have hfinal := finalReduction_eq_sum 128 inst.kernel_info.basic_blocks _ hlen hfit
  rw [slot_sum_eq_sum 128 inst.kernel_info.basic_blocks _ hlen] at hfinal
  unfold Instrumenter.reduceFlops
  simp only [hne, Bool.false_eq_true, if_false, checked_of_success _ _ _ _ hok,
    toUInt_of_lt hfit, hfinal]
  split <;> rfl

/-- C3. For a non-empty block database (and a device whose runtime calls
succeed), `Instrumenter::reduceFlops` returns the sum, in 32-bit unsigned
arithmetic, of the `flops` field of the `128 × basic_blocks` output slots
copied back from the device. Its host phase reads slot `(i, bb)` at index
`i * basic_blocks + bb`; these indices are `0, 1, .., 128 * basic_blocks - 1`
in order, so each slot is read exactly once, and the result is the sum of
`flops` over the whole output vector modulo `2 ^ 32`. For static costs
`[3, 5]` and bucket counts `4, 2, 1, 0` in the first four slots (flops =
count × cost of the basic block) and zero elsewhere, the result is `25`. -/
theorem reduceFlops_host_phase_sum :
    (∀ (inst : Instrumenter) (dev : DeviceRuntime) (device_ptr : List Nat)
        (stream : Option Nat),
      inst.blocks ≠ [] → (∀ n, dev.status n = hipSuccess) →
      128 * inst.kernel_info.basic_blocks < UINT_RANGE →
      (inst.reduceFlops dev device_ptr stream).result
        = .returned (toUInt
            (((List.range (128 * inst.kernel_info.basic_blocks)).map
              (dev.kernelOutput device_ptr
                { threads_per_block := inst.kernel_info.total_threads_per_blocks,
                  total_blocks := inst.kernel_info.total_blocks,
                  basic_blocks := inst.kernel_info.basic_blocks }
                (dev.normalized inst.blocks))).map BlockUsage.flops).sum)) ∧
    (∀ (basic_blocks : Nat) (output : List BlockUsage),
      output.length = 128 * basic_blocks → 128 * basic_blocks < UINT_RANGE →
      finalReduction 128 basic_blocks output = some (toUInt
        (((List.range 128).flatMap fun i => (List.range basic_blocks).map fun bb =>
          (output.getD (i * basic_blocks + bb) ⟨0, 0⟩).flops).sum)) ∧
      ((List.range 128).flatMap fun i => (List.range basic_blocks).map fun bb =>
          i * basic_blocks + bb) = List.range output.length ∧
      finalReduction 128 basic_blocks output
        = some (toUInt ((output.map BlockUsage.flops).sum))) ∧
    (scenarioOutput.length = 128 * 2 ∧
      scenarioOutput.take 4 = [⟨4, 4 * 3⟩, ⟨2, 2 * 5⟩, ⟨1, 1 * 3⟩, ⟨0, 0 * 5⟩] ∧
      (∀ u ∈ scenarioOutput.drop 4, u = ⟨0, 0⟩) ∧
      finalReduction 128 2 scenarioOutput = some 25) := by
  refine ⟨fun inst dev device_ptr stream hdb hok hfit =>
      reduceFlops_of_success inst dev device_ptr stream hdb hok hfit, ?_, ?_⟩
  · intro N output hlen hfit
    have h1 := finalReduction_eq_sum 128 N output hlen hfit
    refine ⟨h1, ?_, ?_⟩
    · rw [slotIndices_eq_range, hlen]
    · rw [h1, slot_sum_eq_sum 128 N output hlen]
  · exact ⟨scenarioOutput_shape.1, scenarioOutput_shape.2.1, scenarioOutput_shape.2.2,
      finalReduction_scenario⟩

/-- The general statements of C3 at the scenario: the whole function on the
scenario device, and the host phase on the scenario output. -/
theorem reduceFlops_host_phase_sum_witness :
    (scenarioReducer.reduceFlops scenarioDevice [] none).result
        = .returned (toUInt
            (((List.range (128 * 2)).map
              (scenarioDevice.kernelOutput []
                { threads_per_block := 2, total_blocks := 2, basic_blocks := 2 }
                (scenarioDevice.normalized scenarioReducer.blocks))).map
              BlockUsage.flops).sum) ∧
    (finalReduction 128 2 scenarioOutput = some (toUInt
        (((List.range 128).flatMap fun i => (List.range 2).map fun bb =>
          (scenarioOutput.getD (i * 2 + bb) ⟨0, 0⟩).flops).sum)) ∧
      ((List.range 128).flatMap fun i => (List.range 2).map fun bb => i * 2 + bb)
        = List.range scenarioOutput.length ∧
      finalReduction 128 2 scenarioOutput
        = some (toUInt ((scenarioOutput.map BlockUsage.flops).sum))) :=
  ⟨reduceFlops_host_phase_sum.1 scenarioReducer scenarioDevice [] none (by decide)
      (fun _ => rfl) (by decide),
    reduceFlops_host_phase_sum.2.1 2 scenarioOutput scenarioOutput_shape.1 (by decide)⟩

/-- C5. `Instrumenter::reduceFlops` throws the empty-database error whenever
the block database is empty, for every device, device pointer and stream, and
the trace of device runtime calls of that run is empty: no allocation, copy,
synchronisation or kernel launch has been issued. When the database is not
empty the run does not end with that error, and it has issued device calls. -/
theorem reduceFlops_empty_database :
    (∀ (inst : Instrumenter) (dev : DeviceRuntime) (device_ptr : List Nat)
        (stream : Option Nat), inst.blocks = [] →
      inst.reduceFlops dev device_ptr stream
        = { trace := [], result := .threw emptyDatabaseMessage }) ∧
    (∀ (inst : Instrumenter) (dev : DeviceRuntime) (device_ptr : List Nat)
        (stream : Option Nat), inst.blocks ≠ [] →
      (inst.reduceFlops dev device_ptr stream).result ≠ .threw emptyDatabaseMessage ∧
      (inst.reduceFlops dev device_ptr stream).trace.head? = some .mallocBuffer) := by
  constructor
  · intro inst dev device_ptr stream hdb
    unfold Instrumenter.reduceFlops
    simp [hdb]
  · intro inst dev device_ptr stream hdb
    have hne := blocks_isEmpty_eq_false inst hdb
    constructor
    · unfold Instrumenter.reduceFlops
      simp only [hne, Bool.false_eq_true, if_false]
      cases stream <;>
        simp only [Option.isNone_none, Option.isNone_some, if_true, if_false,
          Bool.false_eq_true] <;>
        repeat (first
          | (refine checked_result_ne _ _ _ _ ?_; intro _)
          | (split <;> simp))
    · unfold Instrumenter.reduceFlops
      simp only [hne, Bool.false_eq_true, if_false]
      cases stream <;>
        simp only [Option.isNone_none, Option.isNone_some, if_true, if_false,
          Bool.false_eq_true] <;>
        repeat (first
          | (refine checked_head _ _ _ _ _
              (by
                first
                | rfl
                | (apply head?_append_of_head?; assumption)
                | (apply head?_append_of_head?; apply head?_append_of_head?; assumption))
              ?_; intro _ _)
          | (split <;> assumption))

/-- The witness of C5: an instrumenter without database on an arbitrary
device, and one with a database. -/
theorem reduceFlops_empty_database_witness :
    scenarioInstrumenter.reduceFlops scenarioDevice [1, 2, 3] (some 7)
        = { trace := [], result := .threw emptyDatabaseMessage } ∧
      ((scenarioReducer.reduceFlops scenarioDevice [1, 2, 3] (some 7)).result
          ≠ .threw emptyDatabaseMessage ∧
        (scenarioReducer.reduceFlops scenarioDevice [1, 2, 3] (some 7)).trace.head?
          = some .mallocBuffer) :=
  ⟨reduceFlops_empty_database.1 scenarioInstrumenter scenarioDevice [1, 2, 3] (some 7) rfl,
    reduceFlops_empty_database.2 scenarioReducer scenarioDevice [1, 2, 3] (some 7) (by decide)⟩

/-! ## Linearity of the two-phase reduction -/

/-- Two loops whose bodies commute with a map `f` of the accumulator. -/
theorem forLoop_map {σ : Type} (f : σ → σ) (body body' : Nat → σ → Option σ)
    (h : ∀ j s, body' j (f s) = (body j s).map f) :
    ∀ (count i : Nat) (s : σ),
      forLoop body' count i (f s) = (forLoop body count i s).map f := by
  intro count
  induction count with
  | zero => intro i s; rfl
  | succ n ih =>
    intro i s
    simp only [forLoop, h]
    cases hb : body i s with
    | none => rfl
    | some s' => simpa using ih (i + 1) s'

theorem scaled_step (k a x : Nat) :
    toUInt (toUInt (k * a) + toUInt (k * x)) = toUInt (k * toUInt (a + x)) := by
  rw [toUInt_add_toUInt_left, toUInt_add_toUInt_right, toUInt_mul_toUInt_right, Nat.mul_add]

theorem scaled_acc (k a r cost : Nat) :
    toUInt (toUInt (k * a) + toUInt (k * r * cost))
      = toUInt (k * toUInt (a + toUInt (r * cost))) := by
  rw [toUInt_add_toUInt_left, toUInt_add_toUInt_right, toUInt_mul_toUInt_right, Nat.mul_add,
    ← toUInt_add_toUInt_right (k * a) (k * toUInt (r * cost)), toUInt_mul_toUInt_right,
    toUInt_add_toUInt_right, Nat.mul_assoc]

/-- Scaling the raw cells by `k` scales the flops of every output slot of the
device phase by `k`, modulo `2 ^ 32`. -/
theorem deviceReduceFlops_scale (k : Nat) (raw : List Nat) (geometry : LaunchGeometry)
    (blocks_info : List BasicBlock) (slot : Nat) :
    (deviceReduceFlops (raw.map (k * ·)) geometry blocks_info slot).flops
      = toUInt (k * (deviceReduceFlops raw geometry blocks_info slot).flops) := by
  unfold deviceReduceFlops
  simp only [List.length_map]
  generalize ((List.range raw.length).filter fun cell =>
    decide (reductionBucket cell = slot / geometry.basic_blocks ∧
      cell % geometry.basic_blocks = slot % geometry.basic_blocks)) = assigned
  generalize (blocks_info.map BasicBlock.flops).getD (slot % geometry.basic_blocks) 0 = cost
  have hgen : ∀ (l : List Nat) (u u' : BlockUsage), u'.flops = toUInt (k * u.flops) →
      (l.foldl (fun usage cell =>
          ({ count := toUInt (usage.count + (raw.map (k * ·)).getD cell 0),
             flops := toUInt (usage.flops + toUInt ((raw.map (k * ·)).getD cell 0 * cost)) }
            : BlockUsage)) u').flops
        = toUInt (k * (l.foldl (fun usage cell =>
          ({ count := toUInt (usage.count + raw.getD cell 0),
             flops := toUInt (usage.flops + toUInt (raw.getD cell 0 * cost)) }
            : BlockUsage)) u).flops) := by
    intro l
    induction l with
    | nil => intro u u' h; exact h
    | cons c l ih =>
      intro u u' h
      rw [List.foldl_cons, List.foldl_cons]
      apply ih
      have hget : (raw.map (k * ·)).getD c 0 = k * raw.getD c 0 := by
        have := List.getD_map (l := raw) (d := 0) (n := c) (k * ·)
        simpa using this
      simp only [hget, h]
      exact scaled_acc k u.flops (raw.getD c 0) cost
  exact hgen assigned ⟨0, 0⟩ ⟨0, 0⟩ rfl

/-- Linearity of the two-phase reduction in `unsigned int`. -/
theorem reduce_scale (geometry : LaunchGeometry) (blocks_info : List BasicBlock)
    (raw : List Nat) (k : Nat) :
    reduce geometry blocks_info (raw.map (k * ·))
      = (reduce geometry blocks_info raw).map (fun r => toUInt (k * r)) := by
  unfold reduce finalReduction
  have h0 : (0 : Nat) = (fun r => toUInt (k * r)) 0 := by simp [toUInt]
  conv_lhs => arg 4; rw [h0]
  refine forLoop_map (fun r => toUInt (k * r)) _ _ ?_ 128 0 0
  intro i flops
  refine forLoop_map (fun r => toUInt (k * r)) _ _ ?_ geometry.basic_blocks 0 flops
  intro bb flops
  simp only [List.getElem?_map]
  cases (List.range (toUInt (128 * geometry.basic_blocks)))[
      toUInt (toUInt (i * geometry.basic_blocks) + bb)]? with
  | none => rfl
  | some slot =>
    simp only [Option.map_some', deviceReduceFlops_scale, scaled_step]

/-- The two-phase reduction returns a value when the `128 * basic_blocks`
output slots fit `unsigned int`. -/
theorem reduce_returns (geometry : LaunchGeometry) (blocks_info : List BasicBlock)
    (raw : List Nat) (hfit : 128 * geometry.basic_blocks < UINT_RANGE) :
    ∃ r, reduce geometry blocks_info raw = some r ∧ r < UINT_RANGE := by
  unfold reduce
  rw [toUInt_of_lt hfit, finalReduction_eq_sum 128 geometry.basic_blocks _ (by simp) hfit]
  exact ⟨_, rfl, Nat.mod_lt _ (by decide)⟩

/-- On the modelled device, `reduceFlops` with a non-empty database returns
the two-phase reduction of the raw buffer. -/
theorem reduceFlops_modelledDevice (inst : Instrumenter)
    (normalized : List BasicBlock → List BasicBlock) (raw : List Nat) (stream : Option Nat)
    (hdb : inst.blocks ≠ []) :
    (inst.reduceFlops (modelledDevice normalized) raw stream).result
      = Outcome.ofOption (reduce inst.kernel_info.geometry (normalized inst.blocks) raw) := by
  have hne := blocks_isEmpty_eq_false inst hdb
  have hok : ∀ n, (modelledDevice normalized).status n = hipSuccess := fun _ => rfl
  unfold Instrumenter.reduceFlops reduce
  simp only [hne, Bool.false_eq_true, if_false, checked_of_success _ _ _ _ hok]
  have hdev : (modelledDevice normalized).kernelOutput = deviceReduceFlops := rfl
  have hnz : (modelledDevice normalized).normalized = normalized := rfl
  simp only [hdev, hnz, KernelInfo.geometry]
  cases finalReduction 128 inst.kernel_info.basic_blocks
      ((List.range (toUInt (128 * inst.kernel_info.basic_blocks))).map
        (deviceReduceFlops raw
          { threads_per_block := inst.kernel_info.total_threads_per_blocks,
            total_blocks := inst.kernel_info.total_blocks,
            basic_blocks := inst.kernel_info.basic_blocks }
          (normalized inst.blocks))) with
  | none => split <;> rfl
  | some r => split <;> rfl

theorem ofOption_map {α β : Type} (f : α → β) (o : Option α) :
    Outcome.ofOption (o.map f) = (Outcome.ofOption o).map f := by
  cases o <;> rfl

theorem sum_map_toUInt {α : Type} (g : α → Nat) :
    ∀ l : List α, toUInt ((l.map fun x => toUInt (g x)).sum) = toUInt ((l.map g).sum) := by
  intro l
  induction l with
  | nil => rfl
  | cons x l ih =>
    rw [List.map_cons, List.sum_cons, List.map_cons, List.sum_cons, toUInt_add_toUInt_left,
      ← toUInt_add_toUInt_right, ih, toUInt_add_toUInt_right]

/-- The flops of an output slot of the device phase: the sum, modulo
`2 ^ 32`, of count times cost over the cells assigned to the slot. -/
theorem deviceReduceFlops_flops (raw : List Nat) (geometry : LaunchGeometry)
    (blocks_info : List BasicBlock) (slot : Nat) :
    (deviceReduceFlops raw geometry blocks_info slot).flops
      = toUInt ((((List.range raw.length).filter fun cell =>
          decide (reductionBucket cell = slot / geometry.basic_blocks ∧
            cell % geometry.basic_blocks = slot % geometry.basic_blocks)).map
          fun cell => raw.getD cell 0 *
            (blocks_info.map BasicBlock.flops).getD (slot % geometry.basic_blocks) 0).sum) := by
  unfold deviceReduceFlops
  simp only []
  generalize ((List.range raw.length).filter fun cell =>
    decide (reductionBucket cell = slot / geometry.basic_blocks ∧
      cell % geometry.basic_blocks = slot % geometry.basic_blocks)) = assigned
  generalize (blocks_info.map BasicBlock.flops).getD (slot % geometry.basic_blocks) 0 = cost
  have hgen : ∀ (l : List Nat) (u : BlockUsage),
      (l.foldl (fun usage cell =>
          ({ count := toUInt (usage.count + raw.getD cell 0),
             flops := toUInt (usage.flops + toUInt (raw.getD cell 0 * cost)) } : BlockUsage))
          u).flops
        = l.foldl (fun acc cell => toUInt (acc + toUInt (raw.getD cell 0 * cost))) u.flops := by
    intro l
    induction l with
    | nil => intro u; rfl
    | cons c l ih => intro u; rw [List.foldl_cons, List.foldl_cons, ih]
  rw [hgen]
  have h := foldl_toUInt_add (fun cell => toUInt (raw.getD cell 0 * cost)) assigned 0
  rw [Nat.zero_add, sum_map_toUInt] at h
  exact h

theorem sum_indicator_zero (v : Nat) (P : Nat → Bool) :
    ∀ M : Nat, (∀ s, s < M → P s = false) →
      ((List.range M).map fun s => if P s then v else 0).sum = 0 := by
  intro M
  induction M with
  | zero => intro _; rfl
  | succ M ih =>
    intro h
    rw [List.range_succ, List.map_append, List.sum_append, ih (fun s hs => h s (by omega))]
    simp [h M (by omega)]

theorem sum_indicator (v s0 : Nat) (P : Nat → Bool) :
    ∀ M : Nat, s0 < M → (∀ s, s < M → (P s = true ↔ s = s0)) →
      ((List.range M).map fun s => if P s then v else 0).sum = v := by
  intro M
  induction M with
  | zero => intro h; omega
  | succ M ih =>
    intro hs0 h
    rw [List.range_succ, List.map_append, List.sum_append]
    by_cases hM : s0 = M
    · have hz := sum_indicator_zero v P M (fun s hs => by
        cases hp : P s with
        | false => rfl
        | true => have := (h s (by omega)).1 hp; omega)
      have hl : P M = true := (h M (by omega)).2 hM.symm
      rw [hz]
      simp [hl]
    · have hl : P M = false := by
        cases hp : P M with
        | false => rfl
        | true => have := (h M (by omega)).1 hp; omega
      rw [ih (by omega) (fun s hs => h s (by omega))]
      simp [hl]

/-- A sum over the classes of a partition is the sum over the whole list:
every element of `L` lies in exactly one class `s < M`. -/
theorem sum_partition (M : Nat) (P : Nat → Nat → Bool) (key : Nat → Nat) (h : Nat → Nat) :
    ∀ L : List Nat, (∀ c ∈ L, key c < M ∧ ∀ s, s < M → (P s c = true ↔ s = key c)) →
      ((List.range M).map fun s => ((L.filter (P s)).map h).sum).sum = (L.map h).sum := by
  intro L
  induction L with
  | nil => intro _; simp
  | cons c L ih =>
    intro hL
    obtain ⟨hk, hP⟩ := hL c (List.mem_cons_self c L)
    have hsplit : ∀ s, (((c :: L).filter (P s)).map h).sum
        = (if P s c then h c else 0) + ((L.filter (P s)).map h).sum := by
      intro s
      cases hp : P s c <;> simp [List.filter_cons, hp]
    simp only [hsplit]
    rw [List.sum_map_add, sum_indicator (h c) (key c) (fun s => P s c) M hk hP,
      ih (fun x hx => hL x (List.mem_cons_of_mem c hx)), List.map_cons, List.sum_cons]

theorem reductionBucket_lt (cell : Nat) : reductionBucket cell < 128 := by
  unfold reductionBucket reductionWorkers
  omega

/-- Closed form of the two-phase reduction: the sum over all raw cells of the
count times the static cost of the cell's basic block, modulo `2 ^ 32`. -/
theorem reduce_eq_sum (geometry : LaunchGeometry) (blocks_info : List BasicBlock)
    (raw : List Nat) (hpos : 0 < geometry.basic_blocks)
    (hfit : 128 * geometry.basic_blocks < UINT_RANGE) :
    reduce geometry blocks_info raw = some (toUInt
      (((List.range raw.length).map fun cell => raw.getD cell 0 *
        (blocks_info.map BasicBlock.flops).getD (cell % geometry.basic_blocks) 0).sum)) := by
  unfold reduce
  rw [toUInt_of_lt hfit, finalReduction_eq_sum 128 geometry.basic_blocks _ (by simp) hfit,
    slot_sum_eq_sum 128 geometry.basic_blocks _ (by simp), List.map_map]
  have hslot : (BlockUsage.flops ∘ deviceReduceFlops raw geometry blocks_info)
      = fun slot => toUInt (((((List.range raw.length).filter fun cell =>
          decide (reductionBucket cell = slot / geometry.basic_blocks ∧
            cell % geometry.basic_blocks = slot % geometry.basic_blocks)).map
          fun cell => raw.getD cell 0 *
            (blocks_info.map BasicBlock.flops).getD (cell % geometry.basic_blocks) 0).sum)) := by
    funext slot
    rw [Function.comp_apply, deviceReduceFlops_flops]
    congr 2
    apply List.map_congr_left
    intro cell hcell
    have := (List.mem_filter.1 hcell).2
    simp only [decide_eq_true_eq] at this
    rw [this.2]
  rw [hslot, sum_map_toUInt]
  congr 2
  apply sum_partition (128 * geometry.basic_blocks)
    (fun slot cell => decide (reductionBucket cell = slot / geometry.basic_blocks ∧
      cell % geometry.basic_blocks = slot % geometry.basic_blocks))
    (fun cell => reductionBucket cell * geometry.basic_blocks + cell % geometry.basic_blocks)
  intro cell _
  have hb := reductionBucket_lt cell
  have hm : cell % geometry.basic_blocks < geometry.basic_blocks := Nat.mod_lt _ hpos
  refine ⟨?_, ?_⟩
  · have := flat_lt 1 128 geometry.basic_blocks 0 (reductionBucket cell)
      (cell % geometry.basic_blocks) (by omega) hb hm
    simpa using this
  · intro s hs
    simp only [decide_eq_true_eq]
    constructor
    · rintro ⟨h1, h2⟩
      rw [h1, h2, Nat.mul_comm]
      exact (Nat.div_add_mod s geometry.basic_blocks).symm
    · intro h
      subst h
      constructor
      · rw [Nat.mul_comm, Nat.mul_add_div hpos, Nat.div_eq_of_lt hm, Nat.add_zero]
      · rw [Nat.mul_comm, Nat.mul_add_mod, Nat.mod_mod]

set_option maxRecDepth 1000000 in
theorem reduce_scenario :
    reduce ⟨2, 2, 2⟩ scenarioCosts [1, 2, 3, 4, 5, 6, 7, 8] = some 148 := by
  decide

/-- C4. For fixed static costs, every raw counter buffer and every natural
number `k`: multiplying every raw counter cell by `k` multiplies the result of
the two-phase reduction by `k`, the product being taken in the `unsigned int`
arithmetic of the result (`reduce (k · raw) = k · reduce raw` modulo `2 ^ 32`),
hence exactly `k · reduce raw` whenever that product fits 32 bits; and an
all-zero raw buffer yields `0` for any costs. The reduction does return a
value whenever its `128 * basic_blocks` output slots fit `unsigned int`; it
is then the sum over all raw cells of the count times the static cost of the
cell's basic block, modulo `2 ^ 32`. The linearity also holds of
`Instrumenter::reduceFlops` run on the modelled device. -/
theorem reduce_linear :
    (∀ (geometry : LaunchGeometry) (costs : List BasicBlock) (raw : List Nat) (k : Nat),
      reduce geometry costs (raw.map (k * ·))
        = (reduce geometry costs raw).map (fun r => toUInt (k * r))) ∧
    (∀ (geometry : LaunchGeometry) (costs : List BasicBlock) (raw : List Nat) (k r : Nat),
      reduce geometry costs raw = some r → k * r < UINT_RANGE →
      reduce geometry costs (raw.map (k * ·)) = some (k * r)) ∧
    (∀ (geometry : LaunchGeometry) (costs : List BasicBlock) (raw : List Nat),
      128 * geometry.basic_blocks < UINT_RANGE →
      ∃ r, reduce geometry costs raw = some r) ∧
    (∀ (geometry : LaunchGeometry) (costs : List BasicBlock) (cells : Nat),
      128 * geometry.basic_blocks < UINT_RANGE →
      reduce geometry costs (List.replicate cells 0) = some 0) ∧
    (∀ (inst : Instrumenter) (normalized : List BasicBlock → List BasicBlock)
        (raw : List Nat) (stream : Option Nat) (k : Nat), inst.blocks ≠ [] →
      (inst.reduceFlops (modelledDevice normalized) (raw.map (k * ·)) stream).result
        = ((inst.reduceFlops (modelledDevice normalized) raw stream).result).map
            (fun r => toUInt (k * r))) ∧
    (∀ (geometry : LaunchGeometry) (costs : List BasicBlock) (raw : List Nat),
      0 < geometry.basic_blocks → 128 * geometry.basic_blocks < UINT_RANGE →
      reduce geometry costs raw = some (toUInt
        (((List.range raw.length).map fun cell => raw.getD cell 0 *
          (costs.map BasicBlock.flops).getD (cell % geometry.basic_blocks) 0).sum))) := by
  refine ⟨reduce_scale, ?_, ?_, ?_, ?_, reduce_eq_sum⟩
  · intro geometry costs raw k r hr hk
    rw [reduce_scale, hr, Option.map_some', toUInt_of_lt hk]
  · intro geometry costs raw hfit
    obtain ⟨r, hr, _⟩ := reduce_returns geometry costs raw hfit
    exact ⟨r, hr⟩
  · intro geometry costs cells hfit
    obtain ⟨r, hr, _⟩ := reduce_returns geometry costs (List.replicate cells 0) hfit
    have hz : List.replicate cells 0 = (List.replicate cells 0).map (0 * ·) := by
      simp
    rw [hz, reduce_scale, hr]
    simp [toUInt]
  · intro inst normalized raw stream k hdb
    rw [reduceFlops_modelledDevice inst normalized _ stream hdb,
      reduceFlops_modelledDevice inst normalized raw stream hdb, reduce_scale, ofOption_map]

/-- C4 at the scenario costs `[3, 5]`: the buffer `[1, .., 8]` reduces to
`148`, three times the buffer to `444`, and the all-zero buffer to `0`. -/
theorem reduce_linear_witness :
    reduce ⟨2, 2, 2⟩ scenarioCosts ([1, 2, 3, 4, 5, 6, 7, 8].map (3 * ·)) = some (3 * 148) ∧
      (∃ r, reduce ⟨2, 2, 2⟩ scenarioCosts [1, 2, 3, 4, 5, 6, 7, 8] = some r) ∧
      reduce ⟨2, 2, 2⟩ scenarioCosts (List.replicate 8 0) = some 0 ∧
      (scenarioReducer.reduceFlops (modelledDevice id)
          ([1, 2, 3, 4, 5, 6, 7, 8].map (3 * ·)) none).result
        = ((scenarioReducer.reduceFlops (modelledDevice id)
            [1, 2, 3, 4, 5, 6, 7, 8] none).result).map (fun r => toUInt (3 * r)) :=
  ⟨reduce_linear.2.1 ⟨2, 2, 2⟩ scenarioCosts [1, 2, 3, 4, 5, 6, 7, 8] 3 148 reduce_scenario
      (by decide),
    reduce_linear.2.2.1 ⟨2, 2, 2⟩ scenarioCosts [1, 2, 3, 4, 5, 6, 7, 8] (by decide),
    reduce_linear.2.2.2.1 ⟨2, 2, 2⟩ scenarioCosts 8 (by decide),
    reduce_linear.2.2.2.2.1 scenarioReducer id [1, 2, 3, 4, 5, 6, 7, 8] none 3 (by decide)⟩

/-! ## The FLOP counter -/

theorem counts_iff (op : Opcode) : FlopCounter.counts op = true ↔ op.isFlop := by
  cases op <;>
    simp [FlopCounter.counts, Opcode.isFlop, Opcode.isBinaryFloatArithmetic,
      Opcode.isFloatIntConversion, Opcode.isFloatWidthConversion, Opcode.isFloatComparison]

theorem flopCounter_fold (bb : List Instruction) :
    ∀ c : FlopCounter, c.count < UINT_RANGE →
      (bb.foldl (fun (c : FlopCounter) instr =>
        if FlopCounter.counts instr.opcode then { count := toUInt (c.count + 1) } else c)
        c).count = toUInt (c.count + flopInstructions bb) := by
  induction bb with
  | nil => intro c hc; simp [flopInstructions, toUInt_of_lt hc]
  | cons instr bb ih =>
    intro c hc
    rw [List.foldl_cons]
    by_cases h : FlopCounter.counts instr.opcode = true
    · have hcat := (counts_iff instr.opcode).1 h
      have hn : flopInstructions (instr :: bb) = flopInstructions bb + 1 := by
        simp [flopInstructions, List.filter_cons, hcat]
      have hstep := ih { count := toUInt (c.count + 1) }
        (show toUInt (c.count + 1) < UINT_RANGE from Nat.mod_lt _ (by decide))
      rw [if_pos h, hstep, hn]
      simp only []
      rw [toUInt_add_toUInt_left]
      congr 1
      omega
    · have hcat : ¬ instr.opcode.isFlop := fun hc' => h ((counts_iff instr.opcode).2 hc')
      have hn : flopInstructions (instr :: bb) = flopInstructions bb := by
        simp [flopInstructions, List.filter_cons, hcat]
      rw [if_neg h, ih c hc, hn]

theorem flopInstructions_append (A B : List Instruction) :
    flopInstructions (A ++ B) = flopInstructions A + flopInstructions B := by
  simp [flopInstructions, List.filter_append]

/-- C10, as stated, fails. A floating-point extension or truncation is none
of floating-point arithmetic, floating/integer conversion, floating
comparison, and `FlopCounter` counts it: a fresh counter returns 1 on the
block `fpext` (and on `fptrunc`), where the block holds no instruction of the
three kinds. The negation `fneg` is floating-point arithmetic and is not
counted: a fresh counter returns 0 on the block `fneg`. -/
theorem flopCounter_counts_fpext_not_fneg :
    (floatInstructions [⟨.FPExt, 0⟩] = 0 ∧ (FlopCounter.new.call [⟨.FPExt, 0⟩]).2 = 1) ∧
    (floatInstructions [⟨.FPTrunc, 0⟩] = 0 ∧ (FlopCounter.new.call [⟨.FPTrunc, 0⟩]).2 = 1) ∧
    (floatInstructions [⟨.FNeg, 0⟩] = 1 ∧ (FlopCounter.new.call [⟨.FNeg, 0⟩]).2 = 0) := by
  decide

/-- C10, amended. For every `FlopCounter` state and every basic block,
applying the counter returns the running total held before the call plus the
number of instructions of the block whose opcode is binary floating-point
arithmetic (`fadd`, `fsub`, `fmul`, `fdiv`, `frem`), a floating/integer
conversion (`fptoui`, `fptosi`, `uitofp`, `sitofp`), a floating-point
truncation or extension (`fptrunc`, `fpext`) or a floating comparison
(`fcmp`). The sum is an `unsigned int`: it is taken modulo `2 ^ 32`, and is
exact when it fits. An instruction with any other opcode, `fneg` included,
adds nothing; the returned value stays in the counter, which is not reset, so
applying one instance to block `A` and then to block `B` returns the total
before plus the count for `A` plus the count for `B` (for a fresh instance:
the count for `A` plus the count for `B`). -/
theorem flopCounter_accumulates :
    (∀ (c : FlopCounter) (bb : List Instruction), c.count < UINT_RANGE →
      (c.call bb).2 = toUInt (c.count + flopInstructions bb) ∧
      (c.call bb).1.count = (c.call bb).2 ∧
      (c.count + flopInstructions bb < UINT_RANGE →
        (c.call bb).2 = c.count + flopInstructions bb)) ∧
    (∀ (c : FlopCounter) (instr : Instruction), c.count < UINT_RANGE →
      ¬ instr.opcode.isFlop → c.call [instr] = (c, c.count)) ∧
    (∀ (c : FlopCounter) (pointee_bits : Nat), c.call [⟨.FNeg, pointee_bits⟩] = (c, c.count)) ∧
    (∀ (c : FlopCounter) (instr : Instruction), c.count + 1 < UINT_RANGE →
      instr.opcode.isFlop → (c.call [instr]).2 = c.count + 1) ∧
    (∀ (c : FlopCounter) (A B : List Instruction), c.count < UINT_RANGE →
      ((c.call A).1.call B).2 = toUInt (c.count + flopInstructions A + flopInstructions B) ∧
      (c.count + flopInstructions A + flopInstructions B < UINT_RANGE →
        ((c.call A).1.call B).2 = c.count + flopInstructions A + flopInstructions B)) ∧
    (∀ (A B : List Instruction), flopInstructions A + flopInstructions B < UINT_RANGE →
      ((FlopCounter.new.call A).1.call B).2 = flopInstructions A + flopInstructions B) := by
  have hcall : ∀ (c : FlopCounter) (bb : List Instruction), c.count < UINT_RANGE →
      (c.call bb).2 = toUInt (c.count + flopInstructions bb) := by
    intro c bb hc
    exact flopCounter_fold bb c hc
  have htwo : ∀ (c : FlopCounter) (A B : List Instruction), c.count < UINT_RANGE →
      ((c.call A).1.call B).2 = toUInt (c.count + flopInstructions A + flopInstructions B) := by
    intro c A B hc
    have h1 : (c.call A).1.count = toUInt (c.count + flopInstructions A) := hcall c A hc
    rw [hcall _ B (by rw [h1]; exact Nat.mod_lt _ (by decide)), h1, toUInt_add_toUInt_left]
  refine ⟨?_, ?_, ?_, ?_, ?_, ?_⟩
  · intro c bb hc
    exact ⟨hcall c bb hc, rfl, fun hfit => by rw [hcall c bb hc, toUInt_of_lt hfit]⟩
  · intro c instr hc hcat
    have h : FlopCounter.counts instr.opcode = false := by
      cases hk : FlopCounter.counts instr.opcode with
      | false => rfl
      | true => exact absurd ((counts_iff instr.opcode).1 hk) hcat
    simp [FlopCounter.call, h]
  · intro c pointee_bits
    simp [FlopCounter.call, FlopCounter.counts]
  · intro c instr hc hcat
    have h := (counts_iff instr.opcode).2 hcat
    simp [FlopCounter.call, h, toUInt_of_lt hc]
  · intro c A B hc
    exact ⟨htwo c A B hc, fun hfit => by rw [htwo c A B hc, toUInt_of_lt hfit]⟩
  · intro A B hfit
    have h := htwo FlopCounter.new A B (by decide)
    rw [h]
    simp only [FlopCounter.new, Nat.zero_add]
    exact toUInt_of_lt hfit

/-- The witness of the amended C10: a counter holding 5 applied to
`fadd, load, fcmp, fneg` and then to `fpext`. -/
theorem flopCounter_accumulates_witness :
    ((FlopCounter.mk 5).call [⟨.FAdd, 0⟩, ⟨.Load, 32⟩, ⟨.FCmp, 0⟩, ⟨.FNeg, 0⟩]).2
        = toUInt (5 + flopInstructions [⟨.FAdd, 0⟩, ⟨.Load, 32⟩, ⟨.FCmp, 0⟩, ⟨.FNeg, 0⟩]) ∧
      (FlopCounter.mk 5).call [⟨.Load, 32⟩] = (FlopCounter.mk 5, 5) ∧
      ((FlopCounter.mk 5).call [⟨.FPExt, 0⟩]).2 = 5 + 1 ∧
      ((FlopCounter.new.call [⟨.FAdd, 0⟩, ⟨.Load, 32⟩, ⟨.FCmp, 0⟩, ⟨.FNeg, 0⟩]).1.call
          [⟨.FPExt, 0⟩]).2
        = flopInstructions [⟨.FAdd, 0⟩, ⟨.Load, 32⟩, ⟨.FCmp, 0⟩, ⟨.FNeg, 0⟩]
          + flopInstructions [⟨.FPExt, 0⟩] :=
  ⟨(flopCounter_accumulates.1 ⟨5⟩ [⟨.FAdd, 0⟩, ⟨.Load, 32⟩, ⟨.FCmp, 0⟩, ⟨.FNeg, 0⟩]
      (by decide)).1,
    flopCounter_accumulates.2.1 ⟨5⟩ ⟨.Load, 32⟩ (by decide) (by decide),
    flopCounter_accumulates.2.2.2.1 ⟨5⟩ ⟨.FPExt, 0⟩ (by decide) (by decide),
    flopCounter_accumulates.2.2.2.2.2 [⟨.FAdd, 0⟩, ⟨.Load, 32⟩, ⟨.FCmp, 0⟩, ⟨.FNeg, 0⟩]
      [⟨.FPExt, 0⟩] (by decide)⟩

/-! ## Round trip of the block database -/

theorem fromJson_json (b : BasicBlock) (h : b.WellTyped) :
    BasicBlock.fromJson b.json = .ok b := by
  obtain ⟨hid, hflops⟩ := h
  simp [BasicBlock.fromJson, BasicBlock.json, Json.member, Json.asUInt, Json.asString,
    List.find?, hid, hflops]

theorem mapM_fromJson_json :
    ∀ blocks : List BasicBlock, (∀ b ∈ blocks, b.WellTyped) →
      (blocks.map BasicBlock.json).mapM BasicBlock.fromJson = .ok blocks := by
  intro blocks
  induction blocks with
  | nil => intro _; rfl
  | cons b bs ih =>
    intro h
    rw [List.map_cons, List.mapM_cons, fromJson_json b (h b (List.mem_cons_self b bs)),
      ih (fun x hx => h x (List.mem_cons_of_mem b hx))]
    rfl

/-- C9. For every list of `BasicBlock` records (non-empty or not) whose `id`
and `flops` are `unsigned int` values,
`BasicBlock::fromJsonArray(BasicBlock::jsonArray(blocks))` succeeds and equals
`blocks`: the same number of records in the same order, each with the same
id, flops, begin location and end location; and `fromJson(json(b))` equals
`b` for a single record. -/
theorem basicBlock_json_roundtrip :
    (∀ blocks : List BasicBlock, blocks ≠ [] → (∀ b ∈ blocks, b.WellTyped) →
      BasicBlock.fromJsonArray (BasicBlock.jsonArray blocks) = .ok blocks) ∧
    (∀ blocks decoded : List BasicBlock, (∀ b ∈ blocks, b.WellTyped) →
      BasicBlock.fromJsonArray (BasicBlock.jsonArray blocks) = .ok decoded →
      decoded.length = blocks.length ∧
      ∀ i (h : i < blocks.length) (h' : i < decoded.length),
        decoded[i].id = blocks[i].id ∧ decoded[i].flops = blocks[i].flops ∧
        decoded[i].begin_loc = blocks[i].begin_loc ∧
        decoded[i].end_loc = blocks[i].end_loc) ∧
    (∀ b : BasicBlock, b.WellTyped → BasicBlock.fromJson b.json = .ok b) := by
  refine ⟨?_, ?_, fromJson_json⟩
  · intro blocks _ h
    exact mapM_fromJson_json blocks h
  · intro blocks decoded h hdec
    have hok : BasicBlock.fromJsonArray (BasicBlock.jsonArray blocks) = .ok blocks :=
      mapM_fromJson_json blocks h
    rw [hok] at hdec
    cases hdec
    exact ⟨rfl, fun i _ _ => ⟨rfl, rfl, rfl, rfl⟩⟩

/-- The witness of C9: the two-block database of the scenario. -/
theorem basicBlock_json_roundtrip_witness :
    BasicBlock.fromJsonArray (BasicBlock.jsonArray scenarioCosts) = .ok scenarioCosts ∧
      BasicBlock.fromJson (BasicBlock.json ⟨7, 12, "k.cpp:3:5", "k.cpp:9:1"⟩)
        = .ok ⟨7, 12, "k.cpp:3:5", "k.cpp:9:1"⟩ :=
  ⟨basicBlock_json_roundtrip.1 scenarioCosts (by decide) (by decide),
    basicBlock_json_roundtrip.2.2 ⟨7, 12, "k.cpp:3:5", "k.cpp:9:1"⟩ (by decide)⟩

/-! ## Decimal rendering and the block snippet -/

theorem digitChar_value (d : Nat) (h : d < 10) : (Nat.digitChar d).toNat - 48 = d := by
  interval_cases d <;> rfl

theorem digitChar_ne_newline (d : Nat) (h : d < 10) : Nat.digitChar d ≠ '\n' := by
  interval_cases d <;> decide

theorem toDigitsCore_append (f : Nat) :
    ∀ (n : Nat) (ds : List Char),
      Nat.toDigitsCore 10 f n ds = Nat.toDigitsCore 10 f n [] ++ ds := by
  induction f with
  | zero => intro n ds; simp [Nat.toDigitsCore]
  | succ f ih =>
    intro n ds
    simp only [Nat.toDigitsCore]
    split
    · simp
    · rw [ih (n / 10) (Nat.digitChar (n % 10) :: ds), ih (n / 10) [Nat.digitChar (n % 10)]]
      simp

theorem decimalValue_toDigitsCore (f : Nat) :
    ∀ n : Nat, n < f → decimalValue (Nat.toDigitsCore 10 f n []) = n := by
  induction f with
  | zero => intro n h; omega
  | succ f ih =>
    intro n h
    simp only [Nat.toDigitsCore]
    split
    · rename_i h0
      have hn : n < 10 := by omega
      simp [decimalValue, digitChar_value (n % 10) (Nat.mod_lt _ (by decide))]
      omega
    · rename_i h0
      rw [toDigitsCore_append]
      have hlt : n / 10 < f := by omega
      have := ih (n / 10) hlt
      simp only [decimalValue, List.foldl_append, List.foldl_cons, List.foldl_nil] at this ⊢
      rw [this, digitChar_value (n % 10) (Nat.mod_lt _ (by decide))]
      omega

theorem toDigitsCore_ne_newline (f : Nat) :
    ∀ (n : Nat) (ds : List Char), (∀ c ∈ ds, c ≠ '\n') →
      ∀ c ∈ Nat.toDigitsCore 10 f n ds, c ≠ '\n' := by
  induction f with
  | zero => intro n ds h c hc; exact h c (by simpa [Nat.toDigitsCore] using hc)
  | succ f ih =>
    intro n ds h c hc
    simp only [Nat.toDigitsCore] at hc
    have hd : ∀ c ∈ Nat.digitChar (n % 10) :: ds, c ≠ '\n' := by
      intro c hc
      rcases List.mem_cons.1 hc with rfl | hc
      · exact digitChar_ne_newline _ (Nat.mod_lt _ (by decide))
      · exact h c hc
    split at hc
    · exact hd c hc
    · exact ih _ _ hd c hc

theorem toString_data (n : Nat) : (toString n).data = Nat.toDigits 10 n := rfl

theorem toString_nat_injective (i j : Nat) (h : toString i = toString j) : i = j := by
  have hd : Nat.toDigits 10 i = Nat.toDigits 10 j := by
    rw [← toString_data, ← toString_data, h]
  have hi := decimalValue_toDigitsCore (i + 1) i (by omega)
  have hj := decimalValue_toDigitsCore (j + 1) j (by omega)
  unfold Nat.toDigits at hd
  rw [hd] at hi
  omega

/-- Two texts that agree up to and including their first newline. -/
theorem eq_of_append_newline (p : List Char) :
    ∀ (q X Y : List Char), (∀ c ∈ p, c ≠ '\n') → (∀ c ∈ q, c ≠ '\n') →
      p ++ '\n' :: X = q ++ '\n' :: Y → p = q := by
  induction p with
  | nil =>
    intro q X Y _ hq h
    cases q with
    | nil => rfl
    | cons c q =>
      simp only [List.nil_append, List.cons_append, List.cons.injEq] at h
      exact absurd h.1.symm (hq c (List.mem_cons_self c q))
  | cons a p ih =>
    intro q X Y hp hq h
    cases q with
    | nil =>
      simp only [List.nil_append, List.cons_append, List.cons.injEq] at h
      exact absurd h.1 (hp a (List.mem_cons_self a p))
    | cons c q =>
      simp only [List.cons_append, List.cons.injEq] at h
      rw [h.1, ih q X Y (fun x hx => hp x (List.mem_cons_of_mem a hx))
        (fun x hx => hq x (List.mem_cons_of_mem c hx)) h.2]

theorem generateBlockCode_data (id : Nat) :
    (generateBlockCode id).data
      = ("/* BB ".data ++ Nat.toDigits 10 id ++ " */".data) ++ ['\n'] := by
  simp [generateBlockCode, String.data_append, toString_data]

theorem generateBlockCode_line (id : Nat) :
    ∀ c ∈ "/* BB ".data ++ Nat.toDigits 10 id ++ " */".data, c ≠ '\n' := by
  intro c hc
  simp only [List.mem_append] at hc
  rcases hc with (hc | hc) | hc
  · revert c; decide
  · exact toDigitsCore_ne_newline _ _ [] (by simp) c hc
  · revert c; decide

theorem generateBlockCode_injective (i j : Nat)
    (h : generateBlockCode i = generateBlockCode j) : i = j := by
  have hd := congrArg String.data h
  rw [generateBlockCode_data, generateBlockCode_data] at hd
  have h1 := List.append_cancel_right hd
  have h2 := List.append_cancel_right h1
  have h3 := List.append_cancel_left h2
  apply toString_nat_injective
  apply String.ext
  rw [toString_data, toString_data, h3]

/-- Two block snippets are order-independent only if they are the snippet of
the same block id. -/
theorem generateBlockCode_commute (i j : Nat)
    (h : generateBlockCode i ++ generateBlockCode j
      = generateBlockCode j ++ generateBlockCode i) : i = j := by
  have hd := congrArg String.data h
  simp only [String.data_append] at hd
  rw [generateBlockCode_data i, generateBlockCode_data j] at hd
  have e : ∀ (P Z : List Char), (P ++ ['\n']) ++ Z = P ++ '\n' :: Z := by
    intro P Z; simp
  rw [e, e] at hd
  have hp := eq_of_append_newline _ _ _ _ (generateBlockCode_line i)
    (generateBlockCode_line j) hd
  apply generateBlockCode_injective
  apply String.ext
  rw [generateBlockCode_data, generateBlockCode_data, hp]

/-! ## The edit set -/

theorem mem_insertSorted (R e : Replacement) :
    ∀ l : List Replacement, e ∈ Replacements.insertSorted R l ↔ e = R ∨ e ∈ l := by
  intro l
  induction l with
  | nil => simp [Replacements.insertSorted]
  | cons I l ih =>
    simp only [Replacements.insertSorted]
    split
    · simp
    · simp only [List.mem_cons, ih]
      constructor
      · rintro (h | h | h)
        · exact Or.inr (Or.inl h)
        · exact Or.inl h
        · exact Or.inr (Or.inr h)
      · rintro (h | h | h)
        · exact Or.inr (Or.inl h)
        · exact Or.inl h
        · exact Or.inr (Or.inr h)

theorem length_insertSorted (R : Replacement) :
    ∀ l : List Replacement, (Replacements.insertSorted R l).length = l.length + 1 := by
  intro l
  induction l with
  | nil => simp [Replacements.insertSorted]
  | cons I l ih =>
    simp only [Replacements.insertSorted]
    split
    · simp
    · simp [ih]

/-- An insertion that is order-dependent with every entry at its offset is
either inserted, when no entry is at its offset, or refused. -/
theorem add_ok_of_order_dependent (reps reps' : List Replacement) (R : Replacement)
    (hdep : ∀ I ∈ reps, I.offset = R.offset → R.text ++ I.text ≠ I.text ++ R.text)
    (h : Replacements.add reps R = .ok reps') :
    reps' = Replacements.insertSorted R reps ∧ ∀ I ∈ reps, I.offset ≠ R.offset := by
  unfold Replacements.add at h
  split at h
  · cases h
  · cases hf : reps.find? (fun I => I.offset == R.offset) with
    | some I =>
      rw [hf] at h
      have hmem := List.mem_of_find?_eq_some hf
      have hoff : I.offset = R.offset := by
        have := List.find?_some hf
        simpa using this
      have hne := hdep I hmem hoff
      simp only [bne_iff_ne, ne_eq, hne, not_false_eq_true, if_true] at h
      cases h
    | none =>
      rw [hf] at h
      simp only [Except.ok.injEq] at h
      refine ⟨h.symm, ?_⟩
      intro I hI hoff
      have := List.find?_eq_none.1 hf I hI
      simp [hoff] at this

/-- The snippet of a block not processed yet is order-dependent with every
entry of the edit set. -/
theorem editSet_order_dependent (processed : List CFGBlock) (reps : List Replacement)
    (hinv : EditSetOf processed reps) (id : Nat)
    (hid : id ∉ processed.map CFGBlock.blockID) :
    ∀ I ∈ reps, generateBlockCode id ++ I.text ≠ I.text ++ generateBlockCode id := by
  intro I hI hc
  obtain ⟨b, hb, loc, _, rfl⟩ := hinv.1 I hI
  have := generateBlockCode_commute id b.blockID hc
  exact hid (this ▸ List.mem_map_of_mem CFGBlock.blockID hb)

theorem editSet_step (processed : List CFGBlock) (reps reps' : List Replacement)
    (b : CFGBlock) (loc : SourceLocation) (hinv : EditSetOf processed reps)
    (hid : b.blockID ∉ processed.map CFGBlock.blockID)
    (hfirst : b.elements.head? = some (.statement loc))
    (hadd : Replacements.add reps
      { filePath := loc.filePath, offset := loc.offset, length := 0,
        text := generateBlockCode b.blockID } = .ok reps') :
    EditSetOf (processed ++ [b]) reps' ∧ reps'.length = reps.length + 1 := by
  have hdep := editSet_order_dependent processed reps hinv b.blockID hid
  obtain ⟨hreps, _⟩ := add_ok_of_order_dependent reps reps' _ (fun I hI _ => hdep I hI) hadd
  subst hreps
  refine ⟨⟨?_, ?_⟩, length_insertSorted _ _⟩
  · intro e he
    rcases (mem_insertSorted _ _ _).1 he with rfl | he
    · exact ⟨b, by simp, loc, hfirst, rfl⟩
    · obtain ⟨b', hb', loc', h1, h2⟩ := hinv.1 e he
      exact ⟨b', by simp [hb'], loc', h1, h2⟩
  · intro b' hb' loc' hfirst'
    rcases List.mem_append.1 hb' with hb' | hb'
    · obtain ⟨e, he, hoff⟩ := hinv.2 b' hb' loc' hfirst'
      exact ⟨e, (mem_insertSorted _ _ _).2 (Or.inr he), hoff⟩
    · have hbb : b' = b := by simpa using hb'
      subst hbb
      rw [hfirst] at hfirst'
      cases hfirst'
      exact ⟨_, (mem_insertSorted _ _ _).2 (Or.inl rfl), rfl⟩

theorem editSet_skip (processed : List CFGBlock) (reps : List Replacement) (b : CFGBlock)
    (hinv : EditSetOf processed reps) (hfirst : ¬ b.startsWithStatement) :
    EditSetOf (processed ++ [b]) reps := by
  refine ⟨?_, ?_⟩
  · intro e he
    obtain ⟨b', hb', loc', h1, h2⟩ := hinv.1 e he
    exact ⟨b', by simp [hb'], loc', h1, h2⟩
  · intro b' hb' loc' hfirst'
    rcases List.mem_append.1 hb' with hb' | hb'
    · exact hinv.2 b' hb' loc' hfirst'
    · have hbb : b' = b := by simpa using hb'
      subst hbb
      exact absurd ⟨loc', hfirst'⟩ hfirst

/-! ## The block loop of the pass -/

/-- When the loop runs to its end, it has added one insertion per block that
starts with a statement, and no block was empty. -/
theorem instrumentBlocks_count :
    ∀ (blocks : List CFGBlock) (st st' : LoopState),
      instrumentBlocks blocks st = (st', .returned ()) →
      st'.insertions.length
        = st.insertions.length + blocks.countP (fun b => decide b.startsWithStatement) := by
  intro blocks
  induction blocks with
  | nil =>
    intro st st' h
    simp only [instrumentBlocks, Prod.mk.injEq] at h
    rw [← h.1]; simp
  | cons block rest ih =>
    intro st st' h
    unfold instrumentBlocks at h
    cases hfirst : block.elements.head? with
    | none => simp [hfirst] at h
    | some first =>
      cases first with
      | statement loc =>
        simp only [hfirst] at h
        split at h
        · simp at h
        · have := ih _ _ h
          have hs : block.startsWithStatement := ⟨loc, hfirst⟩
          rw [this, List.countP_cons_of_pos _ _ (by simpa using hs)]
          simp only [List.length_append, List.length_singleton]
          omega
      | other kind =>
        simp only [hfirst] at h
        have := ih _ _ h
        have hs : ¬ block.startsWithStatement := by
          rintro ⟨loc, hl⟩; rw [hfirst] at hl; cases hl
        rw [this, List.countP_cons_of_neg _ _ (by simpa using hs)]

/-- With unique block ids, a loop that runs to its end leaves in the edit set
exactly the insertions it added. -/
theorem instrumentBlocks_editSet :
    ∀ (rest processed : List CFGBlock) (st st' : LoopState),
      ((processed ++ rest).map CFGBlock.blockID).Nodup →
      EditSetOf processed st.reps → st.reps.length = st.insertions.length →
      instrumentBlocks rest st = (st', .returned ()) →
      EditSetOf (processed ++ rest) st'.reps ∧ st'.reps.length = st'.insertions.length := by
  intro rest
  induction rest with
  | nil =>
    intro processed st st' _ hinv hlen h
    simp only [instrumentBlocks, Prod.mk.injEq] at h
    rw [← h.1, List.append_nil]
    exact ⟨hinv, hlen⟩
  | cons block rest ih =>
    intro processed st st' hnd hinv hlen h
    have hnd' : (((processed ++ [block]) ++ rest).map CFGBlock.blockID).Nodup := by
      simpa using hnd
    have hid : block.blockID ∉ processed.map CFGBlock.blockID := by
      intro hmem
      rw [List.map_append, List.map_cons, List.nodup_append] at hnd
      exact hnd.2.2 hmem (List.mem_cons_self _ _)
    have happ : processed ++ block :: rest = (processed ++ [block]) ++ rest := by simp
    unfold instrumentBlocks at h
    cases hfirst : block.elements.head? with
    | none => simp [hfirst] at h
    | some first =>
      cases first with
      | statement loc =>
        simp only [hfirst] at h
        split at h
        · simp at h
        · rename_i reps' hadd
          obtain ⟨hinv', hlen'⟩ := editSet_step processed st.reps reps' block loc hinv hid
            hfirst hadd
          rw [happ]
          exact ih (processed ++ [block]) _ st' hnd' hinv'
            (by simp only [List.length_append, List.length_singleton]; omega) h
      | other kind =>
        simp only [hfirst] at h
        have hs : ¬ block.startsWithStatement := by
          rintro ⟨loc, hl⟩; rw [hfirst] at hl; cases hl
        rw [happ]
        exact ih (processed ++ [block])
          { st with console := st.console ++ [.blockHeader block.blockID] } st' hnd'
          (editSet_skip processed st.reps block hinv hs) hlen h

theorem editSetOf_nil : EditSetOf [] [] := by
  constructor
  · intro e he; cases he
  · intro b hb; cases hb

/-- When the loop runs to its end, the insertions it added are those of the
blocks, in iteration order. -/
theorem instrumentBlocks_insertions :
    ∀ (blocks : List CFGBlock) (st st' : LoopState),
      instrumentBlocks blocks st = (st', .returned ()) →
      st'.insertions = st.insertions ++ blocks.filterMap CFGBlock.insertion? := by
  intro blocks
  induction blocks with
  | nil =>
    intro st st' h
    simp only [instrumentBlocks, Prod.mk.injEq] at h
    rw [← h.1]; simp
  | cons block rest ih =>
    intro st st' h
    unfold instrumentBlocks at h
    cases hfirst : block.elements.head? with
    | none => simp [hfirst] at h
    | some first =>
      cases first with
      | statement loc =>
        simp only [hfirst] at h
        split at h
        · simp at h
        · have := ih _ _ h
          rw [this, List.filterMap_cons]
          simp [CFGBlock.insertion?, hfirst]
      | other kind =>
        simp only [hfirst] at h
        have := ih _ _ h
        rw [this, List.filterMap_cons]
        simp [CFGBlock.insertion?, hfirst]

/-- A block without elements ends the loop: it never runs to its end. -/
theorem instrumentBlocks_empty_block :
    ∀ (blocks : List CFGBlock) (st : LoopState),
      (∃ block ∈ blocks, block.elements = []) →
      (instrumentBlocks blocks st).2 ≠ .returned () := by
  intro blocks
  induction blocks with
  | nil =>
    intro st h
    obtain ⟨b, hb, _⟩ := h
    cases hb
  | cons block rest ih =>
    intro st h
    unfold instrumentBlocks
    cases hfirst : block.elements.head? with
    | none => simp
    | some first =>
      have hne : block.elements ≠ [] := by
        intro he; rw [he] at hfirst; cases hfirst
      have hrest : ∃ b ∈ rest, b.elements = [] := by
        obtain ⟨b, hb, hbe⟩ := h
        rcases List.mem_cons.1 hb with hb | hb
        · exact absurd (hb ▸ hbe) hne
        · exact ⟨b, hb, hbe⟩
      cases first with
      | statement loc =>
        simp only []
        split
        · simp
        · exact ih _ hrest
      | other kind =>
        simp only []
        exact ih _ hrest

/-- One step of the block loop on a block without elements. -/
theorem instrumentBlocks_cons_empty (block : CFGBlock) (rest : List CFGBlock) (st : LoopState)
    (h : block.elements.head? = none) :
    instrumentBlocks (block :: rest) st
      = ({ st with console := st.console ++ [.blockHeader block.blockID] },
          .undefinedBehaviour) := by
  simp [instrumentBlocks, h]

/-- One step of the block loop on a block whose first element is not a
statement. -/
theorem instrumentBlocks_cons_other (block : CFGBlock) (rest : List CFGBlock) (st : LoopState)
    (kind : Nat) (h : block.elements.head? = some (.other kind)) :
    instrumentBlocks (block :: rest) st
      = instrumentBlocks rest { st with console := st.console ++ [.blockHeader block.blockID] } := by
  simp [instrumentBlocks, h]

/-- One step of the block loop on a block whose insertion is refused. -/
theorem instrumentBlocks_cons_refused (block : CFGBlock) (rest : List CFGBlock) (st : LoopState)
    (loc : SourceLocation) (err : ReplacementError)
    (h : block.elements.head? = some (.statement loc))
    (hadd : Replacements.add st.reps
      { filePath := loc.filePath, offset := loc.offset, length := 0,
        text := generateBlockCode block.blockID } = .error err) :
    (instrumentBlocks (block :: rest) st).2 = .threw incompatibleEditMessage ∧
    (instrumentBlocks (block :: rest) st).1.insertions = st.insertions ∧
    (instrumentBlocks (block :: rest) st).1.reps = st.reps := by
  simp [instrumentBlocks, h, hadd]

/-- One step of the block loop on a block whose insertion is added. -/
theorem instrumentBlocks_cons_added (block : CFGBlock) (rest : List CFGBlock) (st : LoopState)
    (loc : SourceLocation) (reps : List Replacement)
    (h : block.elements.head? = some (.statement loc))
    (hadd : Replacements.add st.reps
      { filePath := loc.filePath, offset := loc.offset, length := 0,
        text := generateBlockCode block.blockID } = .ok reps) :
    instrumentBlocks (block :: rest) st
      = instrumentBlocks rest
          { console := st.console ++ [.blockHeader block.blockID] ++
              [.dumpLocation loc, .dumpStmt,
                .replacement { filePath := loc.filePath, offset := loc.offset, length := 0,
                               text := generateBlockCode block.blockID }],
            insertions := st.insertions ++
              [{ filePath := loc.filePath, offset := loc.offset, length := 0,
                 text := generateBlockCode block.blockID }],
            reps := reps } := by
  simp [instrumentBlocks, h, hadd]

/-- The block loop visits the blocks in order and stops at the first block
that has no elements or whose insertion the edit set refuses. The insertions
it has recorded when it ends are those of the blocks visited before that
block, in order, and so is its edit set: the loop over these blocks alone runs
to its end with the same insertions and the same edit set. -/
theorem instrumentBlocks_visited :
    ∀ (blocks : List CFGBlock) (st : LoopState),
      ∃ visited rest, blocks = visited ++ rest ∧
        (∀ b ∈ visited, b.elements ≠ []) ∧
        ((instrumentBlocks visited st).2 = .returned () ∧
          (instrumentBlocks visited st).1.insertions = (instrumentBlocks blocks st).1.insertions ∧
          (instrumentBlocks visited st).1.reps = (instrumentBlocks blocks st).1.reps) ∧
        (instrumentBlocks blocks st).1.insertions
          = st.insertions ++ visited.filterMap CFGBlock.insertion? ∧
        ((instrumentBlocks blocks st).2 = .returned () ↔ rest = []) ∧
        (∀ b tail, rest = b :: tail →
          (b.elements = [] ∧ (instrumentBlocks blocks st).2 = .undefinedBehaviour) ∨
          (∃ rep err, b.insertion? = some rep ∧
            Replacements.add (instrumentBlocks blocks st).1.reps rep = .error err ∧
            (instrumentBlocks blocks st).2 = .threw incompatibleEditMessage)) := by
  intro blocks
  induction blocks with
  | nil =>
    intro st
    refine ⟨[], [], rfl, ?_, ?_, ?_, ?_, ?_⟩
    · intro b hb; cases hb
    · simp [instrumentBlocks]
    · simp [instrumentBlocks]
    · simp [instrumentBlocks]
    · intro b tail h; cases h
  | cons block rest ih =>
    intro st
    cases hfirst : block.elements.head? with
    | none =>
      have hel : block.elements = [] := by
        cases hl : block.elements with
        | nil => rfl
        | cons x xs => rw [hl] at hfirst; cases hfirst
      refine ⟨[], block :: rest, rfl, ?_, ?_, ?_, ?_, ?_⟩
      · intro b hb; cases hb
      · rw [instrumentBlocks_cons_empty block rest st hfirst]; simp [instrumentBlocks]
      · rw [instrumentBlocks_cons_empty block rest st hfirst]; simp
      · rw [instrumentBlocks_cons_empty block rest st hfirst]; simp
      · intro b tail h
        cases h
        left
        exact ⟨hel, by rw [instrumentBlocks_cons_empty block rest st hfirst]⟩
    | some first =>
      have hne : block.elements ≠ [] := by
        intro he; rw [he] at hfirst; cases hfirst
      cases first with
      | other kind =>
        obtain ⟨visited, rest', hsplit, hvis, hpre, hins, hret, hstop⟩ :=
          ih { st with console := st.console ++ [.blockHeader block.blockID] }
        have hnone : block.insertion? = none := by
          simp [CFGBlock.insertion?, hfirst]
        refine ⟨block :: visited, rest', by rw [hsplit]; rfl, ?_, ?_, ?_, ?_, ?_⟩
        · intro b hb
          rcases List.mem_cons.1 hb with rfl | hb
          · exact hne
          · exact hvis b hb
        · rw [instrumentBlocks_cons_other block rest st kind hfirst,
            instrumentBlocks_cons_other block visited st kind hfirst]
          exact hpre
        · rw [instrumentBlocks_cons_other block rest st kind hfirst, hins,
            List.filterMap_cons, hnone]
        · rw [instrumentBlocks_cons_other block rest st kind hfirst]; exact hret
        · rw [instrumentBlocks_cons_other block rest st kind hfirst]; exact hstop
      | statement loc =>
        have hsome : block.insertion? = some
            { filePath := loc.filePath, offset := loc.offset, length := 0,
              text := generateBlockCode block.blockID } := by
          simp [CFGBlock.insertion?, hfirst]
        cases hadd : Replacements.add st.reps
            { filePath := loc.filePath, offset := loc.offset, length := 0,
              text := generateBlockCode block.blockID } with
        | error err =>
          obtain ⟨h1, h2, h3⟩ := instrumentBlocks_cons_refused block rest st loc err hfirst hadd
          refine ⟨[], block :: rest, rfl, ?_, ?_, ?_, ?_, ?_⟩
          · intro b hb; cases hb
          · rw [h2, h3]; simp [instrumentBlocks]
          · rw [h2]; simp
          · rw [h1]; simp
          · intro b tail h
            cases h
            right
            exact ⟨_, err, hsome, by rw [h3]; exact hadd, h1⟩
        | ok reps =>
          obtain ⟨visited, rest', hsplit, hvis, hpre, hins, hret, hstop⟩ :=
            ih { console := st.console ++ [.blockHeader block.blockID] ++
                  [.dumpLocation loc, .dumpStmt,
                    .replacement { filePath := loc.filePath, offset := loc.offset, length := 0,
                                   text := generateBlockCode block.blockID }],
                 insertions := st.insertions ++
                  [{ filePath := loc.filePath, offset := loc.offset, length := 0,
                     text := generateBlockCode block.blockID }],
                 reps := reps }
          refine ⟨block :: visited, rest', by rw [hsplit]; rfl, ?_, ?_, ?_, ?_, ?_⟩
          · intro b hb
            rcases List.mem_cons.1 hb with rfl | hb
            · exact hne
            · exact hvis b hb
          · rw [instrumentBlocks_cons_added block rest st loc reps hfirst hadd,
              instrumentBlocks_cons_added block visited st loc reps hfirst hadd]
            exact hpre
          · rw [instrumentBlocks_cons_added block rest st loc reps hfirst hadd, hins,
              List.filterMap_cons, hsome]
            simp
          · rw [instrumentBlocks_cons_added block rest st loc reps hfirst hadd]; exact hret
          · rw [instrumentBlocks_cons_added block rest st loc reps hfirst hadd]; exact hstop


/-- What `run` reports when the kernel is found and its CFG is built: the
outcome, insertions and edit set of the block loop; unless the loop ran to its
end, nothing is applied and `output_file` is untouched. -/
theorem run_of_cfg (self : KernelCfgInstrumenter) (Result : MatchResult)
    (decl : FunctionDecl) (cfg : CFG) (hfound : Result.nodes self.name = some decl)
    (hcfg : decl.cfg = some cfg) :
    (self.run Result).outcome = (instrumentBlocks cfg initialLoopState).2 ∧
    (self.run Result).insertions = (instrumentBlocks cfg initialLoopState).1.insertions ∧
    (self.run Result).reps = (instrumentBlocks cfg initialLoopState).1.reps ∧
    ((instrumentBlocks cfg initialLoopState).2 ≠ .returned () →
      (self.run Result).applied = [] ∧
      (self.run Result).after
        = { self with rewriter := self.rewriter.setSourceMgr Result.SourceManager }) := by
  unfold KernelCfgInstrumenter.run
  simp only [hfound, hcfg]
  rcases h : instrumentBlocks cfg initialLoopState with ⟨st, out⟩
  cases out with
  | returned u =>
    cases u
    simp only []
    split <;> simp
  | threw what => simp
  | undefinedBehaviour => simp

/-! ## The pass -/

/-- C6. For every CFG handed to the instrumentation pass
(`KernelCfgInstrumenter::run`, the kernel found and its CFG built), whether
the pass succeeds on it or not, the number of insertions it records is at
most the number of blocks of the CFG, and it equals the number of blocks if
and only if the pass succeeds and every block's first element is a plain
statement. So for every CFG on which the pass succeeds, the number of
insertions equals the number of blocks if and only if every block's first
element is a plain statement. With the unique block ids of a CFG the edit set
holds one entry per recorded insertion. (A run that stops at a block without
elements or at a refused insertion has recorded fewer insertions than there
are blocks.) -/
theorem run_insertions_le_blocks (self : KernelCfgInstrumenter) (Result : MatchResult)
    (decl : FunctionDecl) (cfg : CFG) (hfound : Result.nodes self.name = some decl)
    (hcfg : decl.cfg = some cfg) :
    (self.run Result).insertions.length ≤ cfg.length ∧
    ((self.run Result).insertions.length = cfg.length ↔
      (self.run Result).outcome = .returned () ∧ ∀ block ∈ cfg, block.startsWithStatement) ∧
    ((self.run Result).outcome = .returned () →
      ((self.run Result).insertions.length = cfg.length ↔
        ∀ block ∈ cfg, block.startsWithStatement)) ∧
    ((cfg.map CFGBlock.blockID).Nodup →
      (self.run Result).reps.length = (self.run Result).insertions.length) := by
  obtain ⟨hout, hins, hreps, _⟩ := run_of_cfg self Result decl cfg hfound hcfg
  obtain ⟨visited, rest, hsplit, _, ⟨hpret, hpins, hpreps⟩, _, hret, _⟩ :=
    instrumentBlocks_visited cfg initialLoopState
  have hloop : instrumentBlocks visited initialLoopState
      = ((instrumentBlocks visited initialLoopState).1, .returned ()) := by
    rw [← hpret]
  have hcount : (self.run Result).insertions.length
      = visited.countP (fun b => decide b.startsWithStatement) := by
    rw [hins, ← hpins, instrumentBlocks_count visited initialLoopState _ hloop]
    simp [initialLoopState]
  have hle : visited.countP (fun b => decide b.startsWithStatement) ≤ visited.length :=
    List.countP_le_length _
  have hlen : cfg.length = visited.length + rest.length := by
    rw [hsplit, List.length_append]
  have hiff : (self.run Result).insertions.length = cfg.length ↔
      (self.run Result).outcome = .returned () ∧ ∀ block ∈ cfg, block.startsWithStatement := by
    rw [hout, hret, hcount]
    constructor
    · intro h
      have hrest : rest = [] := List.length_eq_zero.1 (by omega)
      refine ⟨hrest, ?_⟩
      have hall : visited.countP (fun b => decide b.startsWithStatement) = visited.length := by
        rw [hrest] at hlen; simp at hlen; omega
      rw [List.countP_eq_length] at hall
      intro block hb
      rw [hsplit, hrest, List.append_nil] at hb
      simpa using hall block hb
    · rintro ⟨hrest, hall⟩
      rw [hsplit, hrest, List.append_nil] at hall
      rw [hlen, hrest, List.length_nil, Nat.add_zero, List.countP_eq_length]
      intro b hb
      simpa using hall b hb
  refine ⟨by rw [hcount]; omega, hiff, ?_, ?_⟩
  · intro hok
    rw [hiff]
    exact ⟨fun h => h.2, fun h => ⟨hok, h⟩⟩
  · intro hnd
    have hndv : (([] ++ visited).map CFGBlock.blockID).Nodup := by
      rw [hsplit, List.map_append] at hnd
      simpa using (List.nodup_append.1 hnd).1
    have := instrumentBlocks_editSet visited [] initialLoopState _ hndv editSetOf_nil rfl hloop
    rw [hreps, hins, ← hpreps, ← hpins]
    exact this.2

/-- The witness of C6: the CFG whose exit and entry blocks have no elements
(the run stops at the exit block, no insertion for three blocks), and the CFG
of two blocks that both start with a statement (two insertions). -/
theorem run_insertions_le_blocks_witness :
    (((KernelCfgInstrumenter.new "kernel" "out.cpp").run
        (scenarioMatch emptyBlocksCfg)).insertions.length ≤ emptyBlocksCfg.length ∧
      (((KernelCfgInstrumenter.new "kernel" "out.cpp").run
          (scenarioMatch emptyBlocksCfg)).insertions.length = emptyBlocksCfg.length ↔
        ((KernelCfgInstrumenter.new "kernel" "out.cpp").run
          (scenarioMatch emptyBlocksCfg)).outcome = .returned () ∧
        ∀ block ∈ emptyBlocksCfg, block.startsWithStatement)) ∧
    (((KernelCfgInstrumenter.new "kernel" "out.cpp").run
        (scenarioMatch scenarioCfg)).insertions.length ≤ scenarioCfg.length ∧
      (((KernelCfgInstrumenter.new "kernel" "out.cpp").run
          (scenarioMatch scenarioCfg)).insertions.length = scenarioCfg.length ↔
        ((KernelCfgInstrumenter.new "kernel" "out.cpp").run
          (scenarioMatch scenarioCfg)).outcome = .returned () ∧
        ∀ block ∈ scenarioCfg, block.startsWithStatement)) :=
  ⟨⟨(run_insertions_le_blocks (KernelCfgInstrumenter.new "kernel" "out.cpp")
        (scenarioMatch emptyBlocksCfg) { cfg := some emptyBlocksCfg } emptyBlocksCfg rfl rfl).1,
      (run_insertions_le_blocks (KernelCfgInstrumenter.new "kernel" "out.cpp")
        (scenarioMatch emptyBlocksCfg) { cfg := some emptyBlocksCfg } emptyBlocksCfg rfl rfl).2.1⟩,
    ⟨(run_insertions_le_blocks (KernelCfgInstrumenter.new "kernel" "out.cpp")
        (scenarioMatch scenarioCfg) { cfg := some scenarioCfg } scenarioCfg rfl rfl).1,
      (run_insertions_le_blocks (KernelCfgInstrumenter.new "kernel" "out.cpp")
        (scenarioMatch scenarioCfg) { cfg := some scenarioCfg } scenarioCfg rfl rfl).2.1⟩⟩

/-- C8, as stated, fails: when no function declaration is bound to the
requested kernel name, the run reports nothing. It returns normally, prints
nothing on the console and leaves the output stream and the member read by
`getKernel()` as they were. -/
theorem run_kernel_not_found_reports_nothing :
    (scenarioMatch scenarioCfg).nodes "absent" = none ∧
      ¬ ((KernelCfgInstrumenter.new "absent" "out.cpp").run
          (scenarioMatch scenarioCfg)).Reports
        (KernelCfgInstrumenter.new "absent" "out.cpp") ∧
      ((KernelCfgInstrumenter.new "absent" "out.cpp").run
          (scenarioMatch scenarioCfg)).outcome = .returned () ∧
      ((KernelCfgInstrumenter.new "absent" "out.cpp").run
          (scenarioMatch scenarioCfg)).console = [] ∧
      ((KernelCfgInstrumenter.new "absent" "out.cpp").run
          (scenarioMatch scenarioCfg)).after.getKernel = none ∧
      ((KernelCfgInstrumenter.new "absent" "out.cpp").run
          (scenarioMatch scenarioCfg)).output_file
        = (KernelCfgInstrumenter.new "absent" "out.cpp").output_file :=
  ⟨rfl, by decide, by decide, by decide, rfl, by decide⟩

/-- C8, amended. If no function declaration with the requested kernel name
is present in the match result, `KernelCfgInstrumenter::run` reports nothing:
it returns normally and prints nothing. It writes no file: it records and
applies no edit and writes nothing to the output path (`output_file` is as it
was before the run). Of the callback object only the rewriter has changed: it
is bound to the source manager of the match result. -/
theorem run_kernel_not_found_silent (self : KernelCfgInstrumenter) (Result : MatchResult)
    (habsent : Result.nodes self.name = none) :
    ((self.run Result).outcome = .returned () ∧ (self.run Result).console = []) ∧
    ((self.run Result).insertions = [] ∧ (self.run Result).reps = [] ∧
      (self.run Result).applied = [] ∧
      (self.run Result).output_file = self.output_file) ∧
    ¬ (self.run Result).Reports self ∧
    self.run Result
      = { outcome := .returned (), console := [], insertions := [], reps := [],
          applied := [],
          after := { self with rewriter := self.rewriter.setSourceMgr Result.SourceManager } } := by
  have h : self.run Result
      = { outcome := .returned (), console := [], insertions := [], reps := [],
          applied := [],
          after := { self with rewriter := self.rewriter.setSourceMgr Result.SourceManager } } := by
    unfold KernelCfgInstrumenter.run
    simp only [habsent]
  rw [h]
  refine ⟨⟨rfl, rfl⟩, ⟨rfl, rfl, rfl, rfl⟩, ?_, rfl⟩
  simp [PassRun.Reports, KernelCfgInstrumenter.getKernel]

/-- The witness of the amended C8: the kernel name `absent` is not bound. -/
theorem run_kernel_not_found_silent_witness :
    (((KernelCfgInstrumenter.new "absent" "out.cpp").run (scenarioMatch scenarioCfg)).outcome
        = .returned () ∧
      ((KernelCfgInstrumenter.new "absent" "out.cpp").run (scenarioMatch scenarioCfg)).console
        = []) ∧
    (((KernelCfgInstrumenter.new "absent" "out.cpp").run (scenarioMatch scenarioCfg)).insertions
        = [] ∧
      ((KernelCfgInstrumenter.new "absent" "out.cpp").run (scenarioMatch scenarioCfg)).reps
        = [] ∧
      ((KernelCfgInstrumenter.new "absent" "out.cpp").run (scenarioMatch scenarioCfg)).applied
        = [] ∧
      ((KernelCfgInstrumenter.new "absent" "out.cpp").run
        (scenarioMatch scenarioCfg)).output_file
        = { path := "out.cpp", written := "", closed := false }) :=
  ⟨(run_kernel_not_found_silent (KernelCfgInstrumenter.new "absent" "out.cpp")
      (scenarioMatch scenarioCfg) rfl).1,
   (run_kernel_not_found_silent (KernelCfgInstrumenter.new "absent" "out.cpp")
      (scenarioMatch scenarioCfg) rfl).2.1⟩

/-! ## The memory visitors -/

theorem storeCounter_fold (bb : List Instruction) :
    ∀ c : StoreCounter, c.count < UINT_RANGE →
      (bb.foldl (fun (c : StoreCounter) instr =>
        if instr.opcode = .Store then
          { count := toUInt (c.count + instr.pointee_bits / bits_per_byte) }
        else c) c).count = toUInt (c.count + storedBytes bb) := by
  induction bb with
  | nil => intro c hc; simp [storedBytes, toUInt_of_lt hc]
  | cons instr bb ih =>
    intro c hc
    rw [List.foldl_cons]
    by_cases h : instr.opcode = .Store
    · have hn : storedBytes (instr :: bb) = instr.pointee_bits / 8 + storedBytes bb := by
        simp [storedBytes, List.filter_cons, h, Instruction.pointeeBytes]
      have hstep := ih { count := toUInt (c.count + instr.pointee_bits / bits_per_byte) }
        (show toUInt (c.count + instr.pointee_bits / bits_per_byte) < UINT_RANGE from
          Nat.mod_lt _ (by decide))
      rw [if_pos h, hstep, hn]
      simp only [bits_per_byte]
      rw [toUInt_add_toUInt_left, Nat.add_assoc]
    · have hn : storedBytes (instr :: bb) = storedBytes bb := by
        simp [storedBytes, List.filter_cons, h]
      rw [if_neg h, ih c hc, hn]

theorem loadCounter_fold (bb : List Instruction) :
    ∀ c : LoadCounter, c.count < UINT_RANGE →
      (bb.foldl (fun (c : LoadCounter) instr =>
        if instr.opcode = .GetElementPtr then
          { count := toUInt (c.count + instr.pointee_bits / bits_per_byte) }
        else if instr.opcode = .Load then
          { count := toUInt (c.count + instr.pointee_bits / bits_per_byte) }
        else c) c).count = toUInt (c.count + loadedBytes bb) := by
  induction bb with
  | nil => intro c hc; simp [loadedBytes, toUInt_of_lt hc]
  | cons instr bb ih =>
    intro c hc
    rw [List.foldl_cons]
    have hstep := ih { count := toUInt (c.count + instr.pointee_bits / bits_per_byte) }
      (show toUInt (c.count + instr.pointee_bits / bits_per_byte) < UINT_RANGE from
        Nat.mod_lt _ (by decide))
    by_cases hg : instr.opcode = .GetElementPtr
    · have hn : loadedBytes (instr :: bb) = instr.pointee_bits / 8 + loadedBytes bb := by
        simp [loadedBytes, List.filter_cons, hg, Instruction.pointeeBytes]
      rw [if_pos hg, hstep, hn]
      simp only [bits_per_byte]
      rw [toUInt_add_toUInt_left, Nat.add_assoc]
    · by_cases hl : instr.opcode = .Load
      · have hn : loadedBytes (instr :: bb) = instr.pointee_bits / 8 + loadedBytes bb := by
          simp [loadedBytes, List.filter_cons, hl, Instruction.pointeeBytes]
        rw [if_neg hg, if_pos hl, hstep, hn]
        simp only [bits_per_byte]
        rw [toUInt_add_toUInt_left, Nat.add_assoc]
      · have hn : loadedBytes (instr :: bb) = loadedBytes bb := by
          simp [loadedBytes, List.filter_cons, hg, hl]
        rw [if_neg hg, if_neg hl, ih c hc, hn]

/-- C11. For every basic block, each memory visitor returns its running total
plus, for every matching instruction, the bit width of the pointee type
divided by 8 (integer division; the total is an `unsigned int`, taken modulo
`2 ^ 32`, exact when it fits), and an instruction that does not match adds
nothing. The load counter matches every load and every element-address
computation, so an address computation followed by a load of the same element
adds the bytes of the element twice; the store counter matches every store and
adds `pointee_bits / 8` whatever the pointee type is (nothing else of the type
is looked at). -/
theorem memory_visitors_add_pointee_bytes :
    (∀ (c : StoreCounter) (bb : List Instruction), c.count < UINT_RANGE →
      (c.call bb).2 = toUInt (c.count + storedBytes bb) ∧
      (c.call bb).1.count = (c.call bb).2 ∧
      (c.count + storedBytes bb < UINT_RANGE → (c.call bb).2 = c.count + storedBytes bb)) ∧
    (∀ (c : LoadCounter) (bb : List Instruction), c.count < UINT_RANGE →
      (c.call bb).2 = toUInt (c.count + loadedBytes bb) ∧
      (c.call bb).1.count = (c.call bb).2 ∧
      (c.count + loadedBytes bb < UINT_RANGE → (c.call bb).2 = c.count + loadedBytes bb)) ∧
    (∀ (c : StoreCounter) (instr : Instruction), instr.opcode ≠ .Store →
      c.call [instr] = (c, c.count)) ∧
    (∀ (c : LoadCounter) (instr : Instruction), instr.opcode ≠ .Load →
      instr.opcode ≠ .GetElementPtr → c.call [instr] = (c, c.count)) ∧
    (∀ (c : StoreCounter) (bits : Nat), c.count + bits / 8 < UINT_RANGE →
      (c.call [⟨.Store, bits⟩]).2 = c.count + bits / 8) ∧
    (∀ (c : LoadCounter) (bits : Nat), c.count + bits / 8 < UINT_RANGE →
      (c.call [⟨.Load, bits⟩]).2 = c.count + bits / 8 ∧
      (c.call [⟨.GetElementPtr, bits⟩]).2 = c.count + bits / 8) ∧
    (∀ (c : LoadCounter) (bits : Nat), c.count + 2 * (bits / 8) < UINT_RANGE →
      (c.call [⟨.GetElementPtr, bits⟩, ⟨.Load, bits⟩]).2 = c.count + 2 * (bits / 8)) := by
  have hstore : ∀ (c : StoreCounter) (bb : List Instruction), c.count < UINT_RANGE →
      (c.call bb).2 = toUInt (c.count + storedBytes bb) :=
    fun c bb hc => storeCounter_fold bb c hc
  have hload : ∀ (c : LoadCounter) (bb : List Instruction), c.count < UINT_RANGE →
      (c.call bb).2 = toUInt (c.count + loadedBytes bb) :=
    fun c bb hc => loadCounter_fold bb c hc
  refine ⟨?_, ?_, ?_, ?_, ?_, ?_, ?_⟩
  · intro c bb hc
    exact ⟨hstore c bb hc, rfl, fun hfit => by rw [hstore c bb hc, toUInt_of_lt hfit]⟩
  · intro c bb hc
    exact ⟨hload c bb hc, rfl, fun hfit => by rw [hload c bb hc, toUInt_of_lt hfit]⟩
  · intro c instr h
    simp [StoreCounter.call, h]
  · intro c instr hl hg
    simp [LoadCounter.call, hl, hg]
  · intro c bits hfit
    rw [hstore c _ (by omega)]
    have hb : storedBytes [⟨.Store, bits⟩] = bits / 8 := by
      simp [storedBytes, Instruction.pointeeBytes]
    rw [hb, toUInt_of_lt hfit]
  · intro c bits hfit
    have h1 : loadedBytes [⟨.Load, bits⟩] = bits / 8 := by
      simp [loadedBytes, Instruction.pointeeBytes]
    have h2 : loadedBytes [⟨.GetElementPtr, bits⟩] = bits / 8 := by
      simp [loadedBytes, Instruction.pointeeBytes]
    rw [hload c _ (by omega), hload c _ (by omega), h1, h2, toUInt_of_lt hfit]
    exact ⟨rfl, rfl⟩
  · intro c bits hfit
    have hb : loadedBytes [⟨.GetElementPtr, bits⟩, ⟨.Load, bits⟩] = 2 * (bits / 8) := by
      simp [loadedBytes, Instruction.pointeeBytes]
      omega
    rw [hload c _ (by omega), hb, toUInt_of_lt hfit]

/-- The witness of C11: counters holding 10 applied to the block
`getelementptr float*, load float*, fadd, store float*, store <4 x float>*`. -/
theorem memory_visitors_add_pointee_bytes_witness :
    ((StoreCounter.mk 10).call
        [⟨.GetElementPtr, 32⟩, ⟨.Load, 32⟩, ⟨.FAdd, 0⟩, ⟨.Store, 32⟩, ⟨.Store, 128⟩]).2
        = 10 + storedBytes
          [⟨.GetElementPtr, 32⟩, ⟨.Load, 32⟩, ⟨.FAdd, 0⟩, ⟨.Store, 32⟩, ⟨.Store, 128⟩] ∧
      ((LoadCounter.mk 10).call
        [⟨.GetElementPtr, 32⟩, ⟨.Load, 32⟩, ⟨.FAdd, 0⟩, ⟨.Store, 32⟩, ⟨.Store, 128⟩]).2
        = 10 + loadedBytes
          [⟨.GetElementPtr, 32⟩, ⟨.Load, 32⟩, ⟨.FAdd, 0⟩, ⟨.Store, 32⟩, ⟨.Store, 128⟩] ∧
      (StoreCounter.mk 10).call [⟨.Load, 32⟩] = (StoreCounter.mk 10, 10) ∧
      (LoadCounter.mk 10).call [⟨.Store, 32⟩] = (LoadCounter.mk 10, 10) ∧
      ((StoreCounter.mk 10).call [⟨.Store, 128⟩]).2 = 10 + 128 / 8 ∧
      ((LoadCounter.mk 10).call [⟨.GetElementPtr, 32⟩, ⟨.Load, 32⟩]).2 = 10 + 2 * (32 / 8) :=
  ⟨(memory_visitors_add_pointee_bytes.1 ⟨10⟩
      [⟨.GetElementPtr, 32⟩, ⟨.Load, 32⟩, ⟨.FAdd, 0⟩, ⟨.Store, 32⟩, ⟨.Store, 128⟩]
      (by decide)).2.2 (by decide),
    (memory_visitors_add_pointee_bytes.2.1 ⟨10⟩
      [⟨.GetElementPtr, 32⟩, ⟨.Load, 32⟩, ⟨.FAdd, 0⟩, ⟨.Store, 32⟩, ⟨.Store, 128⟩]
      (by decide)).2.2 (by decide),
    memory_visitors_add_pointee_bytes.2.2.1 ⟨10⟩ ⟨.Load, 32⟩ (by decide),
    memory_visitors_add_pointee_bytes.2.2.2.1 ⟨10⟩ ⟨.Store, 32⟩ (by decide) (by decide),
    memory_visitors_add_pointee_bytes.2.2.2.2.1 ⟨10⟩ 128 (by decide),
    memory_visitors_add_pointee_bytes.2.2.2.2.2.2 ⟨10⟩ 32 (by decide)⟩

/-! ## The per-block snippet of the generator -/

theorem incrementStatement_injective (i j : Nat)
    (h : incrementStatement i = incrementStatement j) : i = j := by
  have hd := congrArg String.data h
  simp only [incrementStatement, String.data_append, toString_data] at hd
  have h1 := List.append_cancel_right hd
  have h2 := List.append_cancel_left h1
  apply toString_nat_injective
  apply String.ext
  rw [toString_data, toString_data, h2]

/-- C12, evaluated on the code. For every generator state and every block
id, the snippet of `InstrGenerator::generateBlockCode(id)` is a comment line
naming `id` and `bb_count` followed by the statement that increments
`_bb_counters[bb_count][threadIdx.x]`: the first index is the block count of
the generator, not the block's id. The statement is the increment of row `id`
only when `id = bb_count`, it is the same for every id, and its first index is
not below the first dimension of the table that
`generateInstrumentationLocals` declares for the same state
(`_bb_counters[bb_count][64]`). For `bb_count = 3` and `id = 1` the snippet
increments `_bb_counters[3][threadIdx.x]`. -/
theorem generateBlockCode_indexes_block_count :
    (∀ (g : InstrGenerator) (id : Nat),
      g.generateBlockCode id
        = "/* BB " ++ toString id ++ " (" ++ toString g.bb_count ++ ") */" ++ "\n" ++
            incrementStatement g.bb_count) ∧
    (∀ (g : InstrGenerator) (id : Nat),
      incrementStatement g.bb_count = incrementStatement id ↔ id = g.bb_count) ∧
    (∀ (g : InstrGenerator),
      g.generateInstrumentationLocals
        = "\n/* Instrumentation locals */\n" ++
            (tableDeclaration g.bb_count 64 ++
              "unsigned int _bb_count = " ++ toString g.bb_count ++ ";\n")) ∧
    (∀ (g : InstrGenerator), ¬ g.bb_count < g.bb_count) ∧
    (scenarioGenerator.generateBlockCode 1
        = "/* BB 1 (3) */\n_bb_counters[3][threadIdx.x] += 1;\n" ∧
      scenarioGenerator.generateBlockCode 1
        ≠ "/* BB 1 (3) */\n" ++ incrementStatement 1 ∧
      scenarioGenerator.generateInstrumentationLocals
        = "\n/* Instrumentation locals */\n__shared__ uint32_t _bb_counters[3][64];\n"
            ++ "unsigned int _bb_count = 3;\n") := by
  refine ⟨fun g id => rfl, ?_, ?_, fun g => Nat.lt_irrefl _, ?_⟩
  · intro g id
    constructor
    · intro h
      exact (incrementStatement_injective _ _ h).symm
    · intro h
      rw [h]
  · intro g
    simp only [InstrGenerator.generateInstrumentationLocals, tableDeclaration,
      String.append_assoc]
    rfl
  · exact ⟨by decide, by decide, by decide⟩

/-! ## Insertions block by block -/

/-- C14 fails in the code: `KernelCfgInstrumenter::run` calls `front()` on
every block without looking whether the block has elements. On a CFG that
holds a block with no elements the run never returns normally and nothing is
applied (the callback object is as before the run, but for the source manager
its rewriter is bound to); if that block is the first of the CFG, the run ends in the undefined
behaviour of `front()` on an empty block with no insertion recorded at all.
On the CFG of blocks 0 (empty), 1 (a statement at offset 35), 2 (empty) the
run stops at block 0, and without block 0 it records the insertion of block 1
and stops at block 2. -/
theorem run_reads_front_of_empty_block :
    (∀ (self : KernelCfgInstrumenter) (Result : MatchResult) (decl : FunctionDecl) (cfg : CFG)
        (block : CFGBlock),
      Result.nodes self.name = some decl → decl.cfg = some cfg →
      block ∈ cfg → block.elements = [] →
      (self.run Result).outcome ≠ .returned () ∧
      (self.run Result).applied = [] ∧
      (self.run Result).after
        = { self with rewriter := self.rewriter.setSourceMgr Result.SourceManager } ∧
      (cfg.head? = some block →
        (self.run Result).outcome = .undefinedBehaviour ∧
        (self.run Result).insertions = [])) ∧
    (((KernelCfgInstrumenter.new "kernel" "out.cpp").run
        (scenarioMatch emptyBlocksCfg)).outcome = .undefinedBehaviour ∧
      ((KernelCfgInstrumenter.new "kernel" "out.cpp").run
        (scenarioMatch emptyBlocksCfg)).insertions = [] ∧
      ((KernelCfgInstrumenter.new "kernel" "out.cpp").run
        (scenarioMatch emptyBlocksCfg)).console
        = [.dumpFunctionDecl, .dumpCfg, .blockHeader 0]) ∧
    (((KernelCfgInstrumenter.new "kernel" "out.cpp").run
        (scenarioMatch emptyBlocksCfg.tail)).outcome = .undefinedBehaviour ∧
      ((KernelCfgInstrumenter.new "kernel" "out.cpp").run
        (scenarioMatch emptyBlocksCfg.tail)).insertions
        = [⟨"kernel.cpp", 35, 0, "/* BB 1 */\n"⟩]) := by
  refine ⟨?_, ⟨by decide, by decide, by decide⟩, ⟨by decide, by decide⟩⟩
  intro self Result decl cfg block hfound hcfg hmem hempty
  obtain ⟨hout, hins, _, hrest⟩ := run_of_cfg self Result decl cfg hfound hcfg
  have hnot := instrumentBlocks_empty_block cfg initialLoopState ⟨block, hmem, hempty⟩
  refine ⟨by rw [hout]; exact hnot, (hrest hnot).1, (hrest hnot).2, ?_⟩
  intro hhead
  cases cfg with
  | nil => cases hhead
  | cons first rest =>
    simp only [List.head?_cons, Option.some.injEq] at hhead
    subst hhead
    rw [hout, hins]
    simp [instrumentBlocks, hempty, initialLoopState]

/-- The witness of C14: the CFG of blocks 0 (empty), 1 and 2 (empty), whose
first block has no elements. -/
theorem run_reads_front_of_empty_block_witness :
    ((KernelCfgInstrumenter.new "kernel" "out.cpp").run
        (scenarioMatch emptyBlocksCfg)).outcome ≠ .returned () ∧
    ((KernelCfgInstrumenter.new "kernel" "out.cpp").run
        (scenarioMatch emptyBlocksCfg)).applied = [] :=
  ⟨(run_reads_front_of_empty_block.1 (KernelCfgInstrumenter.new "kernel" "out.cpp")
      (scenarioMatch emptyBlocksCfg) { cfg := some emptyBlocksCfg } emptyBlocksCfg
      ⟨0, []⟩ rfl rfl (by decide) rfl).1,
   (run_reads_front_of_empty_block.1 (KernelCfgInstrumenter.new "kernel" "out.cpp")
      (scenarioMatch emptyBlocksCfg) { cfg := some emptyBlocksCfg } emptyBlocksCfg
      ⟨0, []⟩ rfl rfl (by decide) rfl).2.1⟩

end hip
